import Mathlib

/-!
Shallow embedding of the core of the `trex-usenix25` evaluation system:
the scoring-rule engine (`metrics/scorer/src/dsl.rs`), the pointer
utilities (`metrics/scorer/src/pointer_utils.rs`), the stats/CSV writer
(`dsl.rs` / `stats.rs`), the job model (`utils/runner/src/job.rs`) and the
content-addressed cache (`utils/runner/src/cache.rs`).

Modelling conventions:
* Machine floats (`f64`) carry only exact small sums of the rule deltas in
  the scorer, so the finite values are modelled as `Rat`; the special
  values produced by division are modelled explicitly by the `F64` type
  (division by zero yields NaN or a signed infinity, never `0`).
* Rust panics (`unwrap`, `assert!`, `unreachable!`) are modelled as
  `Option`/`Except` failures.
* `Index` into the external types container is modelled as `Nat`, the
  container as a `List StructuralType`.
-/

namespace Trex

/-- Modelled from the spec: the external `StructuralType` (from the `trex`
library, out of scope of this repository) exposes a possibly-empty mapping
of byte offsets to co-located struct fields, an optional points-to link,
and a recursive size; additionally the external oracles
`recognize_union_of_c_primitives` (an optional set of C-primitive names,
`None` meaning unrecognizable) and `aggregate_size` are recorded as fields
so their results can be referred to. -/
structure StructuralType where
  pointer_to : Option Nat
  colocated_struct_fields : List (Nat × Nat)
  c_prims : Option (List String)
  aggr_size : Option Nat
deriving DecidableEq

/-- `pointer_utils::is_pointer`. -/
def is_pointer (this : StructuralType) (struct_may_be_pointer : Bool) : Bool :=
  if ¬ this.pointer_to.isSome then false
  else if struct_may_be_pointer then this.pointer_to.isSome
  else if ¬ this.colocated_struct_fields.isEmpty then false
  else this.pointer_to.isSome

/-- Result of `pointer_utils::pointer_level`: `ok` = depth to a
non-pointer, `err` = depth at which the chain closed into a cycle,
`panic` = an invalid index was dereferenced (`Container::get` panics),
`fuelOut` = the modelling fuel ran out (proved unreachable). -/
inductive PLRes where
  | ok (n : Nat)
  | err (n : Nat)
  | panic
  | fuelOut
deriving DecidableEq

/-- The `while !seen.contains(idx)` loop of `pointer_utils::pointer_level`,
with explicit fuel. -/
def pointer_level_loop (types : List StructuralType) (struct_may_be_pointer : Bool) :
    Nat → Nat → List Nat → Nat → PLRes
  | 0, _, _, _ => .fuelOut
  | fuel + 1, idx, seen, level =>
    if idx ∈ seen then .err level
    else
      match types[idx]? with
      | none => .panic
      | some this =>
        if is_pointer this struct_may_be_pointer then
          match this.pointer_to with
          | some nxt => pointer_level_loop types struct_may_be_pointer fuel nxt (idx :: seen) (level + 1)
          | none => .panic
        else .ok level

/-- `pointer_utils::pointer_level`.  Fuel `types.length + 1` is always
sufficient (see `pointer_level_no_fuelOut`). -/
def pointer_level (idx : Nat) (types : List StructuralType) (struct_may_be_pointer : Bool) : PLRes :=
  pointer_level_loop types struct_may_be_pointer (types.length + 1) idx [] 0

/-- Iterated dereference: the `for _ in 0..n { idx = types.get(idx).pointer_to.unwrap() }`
loop of `pointer_utils::recursive_pointee`; `none` models a panic. -/
def derefN (types : List StructuralType) : Nat → Nat → Option Nat
  | 0, idx => some idx
  | n + 1, idx =>
    match types[idx]? with
    | some this =>
      match this.pointer_to with
      | some nxt => derefN types n nxt
      | none => none
    | none => none

/-- `pointer_utils::recursive_pointee`.  `none` models a panic: the
`unimplemented!()` when structs may be pointers, or the
`pointer_level(..).unwrap()` on a cyclic chain (`Err`), or an invalid
index. -/
def recursive_pointee (idx : Nat) (types : List StructuralType) (struct_may_be_pointer : Bool) :
    Option Nat :=
  if struct_may_be_pointer then none
  else
    match pointer_level idx types struct_may_be_pointer with
    | .ok n => derefN types n idx
    | _ => none

/-- A list of distinct naturals all below `L` has length at most `L`. -/
theorem nodup_bounded_length_le {seen : List Nat} {L : Nat}
    (hnd : seen.Nodup) (hlt : ∀ x ∈ seen, x < L) : seen.length ≤ L := by
  have hcard : seen.toFinset.card = seen.length := List.toFinset_card_of_nodup hnd
  have hsub : seen.toFinset ⊆ Finset.range L := by
    intro x hx
    simp only [List.mem_toFinset] at hx
    exact Finset.mem_range.mpr (hlt x hx)
  have := Finset.card_le_card hsub
  simpa [hcard, Finset.card_range] using this

/-- The `pointer_level` loop never runs out of fuel, provided the fuel plus
the number of indices already seen exceeds the number of types. -/
theorem pointer_level_loop_no_fuelOut (types : List StructuralType) (flag : Bool) :
    ∀ fuel idx seen level, seen.Nodup → (∀ x ∈ seen, x < types.length) →
      types.length + 1 ≤ fuel + seen.length →
      pointer_level_loop types flag fuel idx seen level ≠ .fuelOut := by
  intro fuel
  induction fuel with
  | zero =>
    intro idx seen level hnd hlt hfuel
    exact absurd (nodup_bounded_length_le hnd hlt) (by omega)
  | succ fuel ih =>
    intro idx seen level hnd hlt hfuel
    rw [pointer_level_loop]
    split
    · simp
    · match hg : types[idx]? with
      | none => simp
      | some t0 =>
        simp only
        split
        · split
          · rename_i hmem _ _ nxt _
            have hidx : idx < types.length := by
              have := List.getElem?_eq_some.mp hg
              exact this.1
            refine ih nxt (idx :: seen) (level + 1) ?_ ?_ ?_
            · exact List.nodup_cons.mpr ⟨hmem, hnd⟩
            · intro x hx
              rcases List.mem_cons.mp hx with h | h
              · omega
              · exact hlt x h
            · simp only [List.length_cons]; omega
          · simp
        · simp

/-- When the `pointer_level` loop reports a cycle, the reported depth equals
the number of seen indices, hence is at most the number of types. -/
theorem pointer_level_loop_err_le (types : List StructuralType) (flag : Bool) :
    ∀ fuel idx seen level n, level = seen.length → seen.Nodup →
      (∀ x ∈ seen, x < types.length) →
      pointer_level_loop types flag fuel idx seen level = .err n → n ≤ types.length := by
  intro fuel
  induction fuel with
  | zero => intro idx seen level n _ _ _ h; simp [pointer_level_loop] at h
  | succ fuel ih =>
    intro idx seen level n hlevel hnd hlt h
    rw [pointer_level_loop] at h
    split at h
    · have : n = level := by cases h; rfl
      subst this hlevel
      exact nodup_bounded_length_le hnd hlt
    · match hg : types[idx]? with
      | none => rw [hg] at h; simp at h
      | some t0 =>
        rw [hg] at h
        simp only at h
        split at h
        · split at h
          · rename_i hmem _ _ nxt _
            have hidx : idx < types.length := (List.getElem?_eq_some.mp hg).1
            refine ih nxt (idx :: seen) (level + 1) n ?_ ?_ ?_ h
            · simp [hlevel]
            · exact List.nodup_cons.mpr ⟨hmem, hnd⟩
            · intro x hx
              rcases List.mem_cons.mp hx with hh | hh
              · omega
              · exact hlt x hh
          · simp at h
        · simp at h

/-- One unfolding step of `derefN` at a valid pointer index. -/
theorem derefN_succ_of (types : List StructuralType) {idx : Nat} {t : StructuralType} {nxt : Nat}
    (hg : types[idx]? = some t) (hn : t.pointer_to = some nxt) (n : Nat) :
    derefN types (n + 1) idx = derefN types n nxt := by
  simp [derefN, hg, hn]

/-- When the `pointer_level` loop returns `ok n`, dereferencing
`n - level` more times from the current index reaches a valid non-pointer
type. -/
theorem pointer_level_loop_ok_deref (types : List StructuralType) (flag : Bool) :
    ∀ fuel idx seen level n,
      pointer_level_loop types flag fuel idx seen level = .ok n →
      level ≤ n ∧ ∃ p t, derefN types (n - level) idx = some p ∧
        types[p]? = some t ∧ is_pointer t flag = false := by
  intro fuel
  induction fuel with
  | zero => intro idx seen level n h; simp [pointer_level_loop] at h
  | succ fuel ih =>
    intro idx seen level n h
    rw [pointer_level_loop] at h
    split at h
    · simp at h
    · match hg : types[idx]? with
      | none => rw [hg] at h; simp at h
      | some t0 =>
        rw [hg] at h
        simp only at h
        split at h
        · split at h
          · rename_i hptr _ nxt hnxt
            obtain ⟨hle, p, t, hderef, hget, hnp⟩ := ih nxt (idx :: seen) (level + 1) n h
            refine ⟨by omega, p, t, ?_, hget, hnp⟩
            have hsub : n - level = (n - (level + 1)) + 1 := by omega
            rw [hsub, derefN_succ_of types hg hnxt]
            exact hderef
          · simp at h
        · rename_i hnp
          have : n = level := by cases h; rfl
          subst this
          exact ⟨le_refl _, idx, t0, by simp [derefN], hg, by simpa using hnp⟩

/-- A self-referential pointer type: its `pointer_to` is its own index `0`. -/
def selfPtr : StructuralType := ⟨some 0, [], none, none⟩

/-- C5: for every index and every types container (and either flag),
`pointer_level` terminates (the loop never exhausts the fuel
`types.length + 1`, i.e. it always exits through one of its `return`s or
through the cycle branch within that many iterations), and whenever the
chain closes into a cycle with `Err n`, the depth `n` is at most the
number of types in the container. -/
theorem c5_pointer_level_terminates (idx : Nat) (types : List StructuralType) (flag : Bool) :
    pointer_level idx types flag ≠ .fuelOut ∧
      ∀ n, pointer_level idx types flag = .err n → n ≤ types.length := by
  constructor
  · exact pointer_level_loop_no_fuelOut types flag (types.length + 1) idx [] 0
      List.nodup_nil (by simp) (by simp)
  · intro n h
    exact pointer_level_loop_err_le types flag (types.length + 1) idx [] 0 n rfl
      List.nodup_nil (by simp) h

/-- Witness for C5 at the concrete self-referential pointer: the cycle is
reported as `err 1` and the bound `1 ≤ 1` holds. -/
theorem c5_witness : 1 ≤ ([selfPtr] : List StructuralType).length :=
  (c5_pointer_level_terminates 0 [selfPtr] false).2 1 (by decide)

/-- C3 counterexample: for the self-referential pointer (a pointer under
`StructMayBePointer::No`), `recursive_pointee` does not return any index at
all: it panics (the `pointer_level(..).unwrap()` hits the `Err` of the
cyclic chain), so the claim that it returns a non-pointer index without
any acyclicity precondition is false. -/
theorem c3_counterexample :
    is_pointer selfPtr false = true ∧ recursive_pointee 0 [selfPtr] false = none := by
  constructor
  · rfl
  · rfl

/-- C3 (amended): for every index `p` whose type is a pointer under
`StructMayBePointer::No` and whose pointer chain is acyclic (i.e.
`pointer_level` returns `Ok n` rather than `Err`), `recursive_pointee`
returns an index whose type is not a pointer.  (The counterexample forces
the added acyclicity precondition: on a cyclic chain `recursive_pointee`
panics on the `unwrap` of `pointer_level`'s `Err`.) -/
theorem c3_recursive_pointee_nonpointer (types : List StructuralType) (p : Nat)
    (t : StructuralType) (_hg : types[p]? = some t) (_hptr : is_pointer t false = true)
    (n : Nat) (hacyc : pointer_level p types false = .ok n) :
    ∃ p2 t2, recursive_pointee p types false = some p2 ∧
      types[p2]? = some t2 ∧ is_pointer t2 false = false := by
  obtain ⟨-, p2, t2, hderef, hget, hnp⟩ :=
    pointer_level_loop_ok_deref types false (types.length + 1) p [] 0 n hacyc
  refine ⟨p2, t2, ?_, hget, hnp⟩
  rw [recursive_pointee]
  simp only [if_neg (by simp : ¬ (false : Bool) = true)]
  rw [hacyc]
  simpa using hderef

/-- Witness for C3 at a concrete two-element chain: index 0 points to the
plain `int32`-like type at index 1. -/
theorem c3_witness :
    ∃ p2 t2, recursive_pointee 0 [⟨some 1, [], none, none⟩, ⟨none, [], some ["int32"], some 4⟩]
        false = some p2 ∧
      [(⟨some 1, [], none, none⟩ : StructuralType), ⟨none, [], some ["int32"], some 4⟩][p2]? =
        some t2 ∧ is_pointer t2 false = false :=
  c3_recursive_pointee_nonpointer _ 0 ⟨some 1, [], none, none⟩ (by rfl) (by rfl) 1 (by rfl)

/-- `dsl.rs` `enum Property`. -/
inductive Property where
  | IsDefined
  | IsCPointer
  | CPointerLevel
  | IsSTPointer
  | STPointerLevel
  | Size
  | IsCStruct
  | SignIgnoredCPrimitive
  | CPrimitive
deriving DecidableEq

/-- The derived `Debug` name of a `Property` (used by `format!("{:?}", ..)`). -/
def Property.fmt : Property → String
  | .IsDefined => "IsDefined"
  | .IsCPointer => "IsCPointer"
  | .CPointerLevel => "CPointerLevel"
  | .IsSTPointer => "IsSTPointer"
  | .STPointerLevel => "STPointerLevel"
  | .Size => "Size"
  | .IsCStruct => "IsCStruct"
  | .SignIgnoredCPrimitive => "SignIgnoredCPrimitive"
  | .CPrimitive => "CPrimitive"

/-- `dsl.rs` `enum Condition`. -/
inductive Condition where
  | BothAgree
  | BothAreTrue
deriving DecidableEq

/-- The derived `Debug` name of a `Condition`. -/
def Condition.fmt : Condition → String
  | .BothAgree => "BothAgree"
  | .BothAreTrue => "BothAreTrue"

/-- `Result<u32, u32>` as produced by `pointer_level` in the DSL values. -/
inductive U32Res where
  | ok (n : Nat)
  | err (n : Nat)
deriving DecidableEq

/-- `dsl.rs` `enum Value`.  `SetOfStr` models the `BTreeSet<String>` by its
element list (the concrete sets in this development are computed
identically on both sides, so list equality coincides with set
equality). -/
inductive Value where
  | Bool (b : Bool)
  | ResU32U32 (r : U32Res)
  | OptAggrSize (s : Option Nat)
  | SetOfStr (s : List String)
deriving DecidableEq

/-- `dsl.rs` `struct Type` (named `Ty` here since `Type` is reserved):
a types container together with an optional index into it. -/
structure Ty where
  types : List StructuralType
  idx : Option Nat

/-- `Type::stype`: panics (`none`) when the index is absent or invalid. -/
def Ty.stype (t : Ty) : Option StructuralType :=
  t.idx.bind fun i => t.types[i]?

/-- `dsl.rs` `struct TestGTPair`. -/
structure TestGTPair (T : Type) where
  test : T
  gt : T

/-- `dsl.rs` `struct Input`. -/
structure Input where
  types : TestGTPair (List StructuralType)
  idxs : TestGTPair (Option Nat)

/-- `Input::test`. -/
def Input.test (inp : Input) : Ty := ⟨inp.types.test, inp.idxs.test⟩

/-- `Input::gt`. -/
def Input.gt (inp : Input) : Ty := ⟨inp.types.gt, inp.idxs.gt⟩

/-- Modelled from the spec: the sign-normalization table
`trex::c_types::sign_normalized_c_primitives` (external library).  Each
C primitive maps to its sign-agnostic form; the exact right-hand names are
irrelevant to the claims, which need only that the table is defined on the
integer primitives and identifies a primitive with its other-signed
twin. -/
def sign_normalized_c_primitives : List (String × String) :=
  [("int8", "int8"), ("uint8", "int8"),
   ("int16", "int16"), ("uint16", "int16"),
   ("int32", "int32"), ("uint32", "int32"),
   ("int64", "int64"), ("uint64", "int64"),
   ("float32", "float32"), ("float64", "float64"),
   ("float80", "float80"), ("bool", "bool")]

/-- One primitive through the sign-normalization map; `padding…` names pass
through; an unmapped non-padding name is a program error (`unreachable!`),
modelled as `none`. -/
def signNormOne (p : String) : Option String :=
  match sign_normalized_c_primitives.lookup p with
  | some sip => some sip
  | none => if p.startsWith "padding" then some p else none

/-- `Property::eval`.  `none` models a panic inside the evaluation
(`unwrap`/`expect` on a missing index, an invalid index, or an
unrecognizable/unmapped primitive). -/
def Property.eval : Property → Ty → Option Value
  | .IsDefined, t => some (.Bool t.idx.isSome)
  | .IsCPointer, t => t.stype.map fun s => .Bool (is_pointer s false)
  | .CPointerLevel, t =>
    t.idx.bind fun i =>
      match pointer_level i t.types false with
      | .ok n => some (.ResU32U32 (.ok n))
      | .err n => some (.ResU32U32 (.err n))
      | _ => none
  | .IsSTPointer, t => t.stype.map fun s => .Bool (is_pointer s true)
  | .STPointerLevel, t =>
    t.idx.bind fun i =>
      match pointer_level i t.types true with
      | .ok n => some (.ResU32U32 (.ok n))
      | .err n => some (.ResU32U32 (.err n))
      | _ => none
  | .Size, t => t.stype.map fun s => .OptAggrSize s.aggr_size
  | .IsCStruct, t => t.stype.map fun s => .Bool (¬ s.colocated_struct_fields.isEmpty)
  | .CPrimitive, t =>
    t.stype.bind fun s =>
      if is_pointer s false then some (.SetOfStr ["pointer"])
      else if s.colocated_struct_fields.isEmpty then s.c_prims.map .SetOfStr
      else some (.SetOfStr ["struct"])
  | .SignIgnoredCPrimitive, t =>
    t.stype.bind fun s =>
      if is_pointer s false then some (.SetOfStr ["pointer"])
      else if s.colocated_struct_fields.isEmpty then
        s.c_prims.bind fun prims => (prims.mapM signNormOne).map .SetOfStr
      else some (.SetOfStr ["struct"])

mutual

/-- `dsl.rs` `enum Proceed`. -/
inductive Proceed where
  | Halt : Proceed
  | ReRunRuleOnRecursiveCPointee : Proceed
  | Continue : Rule → Proceed
  | SameAsOther : Proceed

/-- `dsl.rs` `struct Rule`, flattened: property, condition, `if_false`
delta and action, `if_true` delta and action. -/
inductive Rule where
  | mk : Property → Condition → Rat → Proceed → Rat → Proceed → Rule

end

/-- `Rule::property`. -/
def Rule.property : Rule → Property
  | .mk p _ _ _ _ _ => p

/-- `Rule::condition`. -/
def Rule.condition : Rule → Condition
  | .mk _ c _ _ _ _ => c

/-- `Rule::if_false` (delta, action). -/
def Rule.if_false : Rule → Rat × Proceed
  | .mk _ _ fd fp _ _ => (fd, fp)

/-- `Rule::if_true` (delta, action). -/
def Rule.if_true : Rule → Rat × Proceed
  | .mk _ _ _ _ td tp => (td, tp)

/-- The innermost node of the built-in `RULES` tree: `CPrimitive`. -/
def RULES7 : Rule := .mk .CPrimitive .BothAgree 0 .Halt 1 .Halt

/-- `SignIgnoredCPrimitive` node of the built-in `RULES` tree. -/
def RULES6 : Rule := .mk .SignIgnoredCPrimitive .BothAgree 0 .Halt 1 (.Continue RULES7)

/-- `IsCStruct` node of the built-in `RULES` tree. -/
def RULES5 : Rule := .mk .IsCStruct .BothAgree 0 .Halt 1 (.Continue RULES6)

/-- `IsCPointer`/`BothAreTrue` node of the built-in `RULES` tree: re-runs
on the recursive pointee when both sides are pointers. -/
def RULES4 : Rule :=
  .mk .IsCPointer .BothAreTrue 0 (.Continue RULES5) 0 .ReRunRuleOnRecursiveCPointee

/-- `CPointerLevel` node of the built-in `RULES` tree. -/
def RULES3 : Rule := .mk .CPointerLevel .BothAgree 0 .Halt 1 (.Continue RULES4)

/-- `IsCPointer`/`BothAgree` node of the built-in `RULES` tree. -/
def RULES2 : Rule := .mk .IsCPointer .BothAgree 0 .Halt 1 (.Continue RULES3)

/-- `dsl.rs` `RULES`: the built-in rule tree, rooted at `IsDefined`. -/
def RULES : Rule := .mk .IsDefined .BothAgree 0 .Halt 1 (.Continue RULES2)

/-- `Rule::property_conditions_product`: the preorder `(property,
condition)` column list; `none` models the `unreachable!` on a
`SameAsOther` in `if_true`. -/
def Rule.property_conditions_product : Rule → Option (List (Property × Condition))
  | .mk p c _ fp _ tp => do
    let tcols ←
      match tp with
      | .Halt | .ReRunRuleOnRecursiveCPointee => some []
      | .Continue r => r.property_conditions_product
      | .SameAsOther => none
    let fcols ←
      match fp with
      | .Halt | .SameAsOther | .ReRunRuleOnRecursiveCPointee => some []
      | .Continue r => r.property_conditions_product
    some ((p, c) :: (tcols ++ fcols))

/-- `dsl.rs` `struct ScoreStats`.  The `UnorderedMap` of failure reasons is
modelled as a total counting function (absent keys count 0, matching the
`unwrap_or(&0)` reads). -/
structure ScoreStats where
  score : Rat
  domain_size : Nat
  failure_reasons : Property × Condition → Nat
  columns : List (Property × Condition)

/-- `ScoreStats::new` (panics, i.e. `none`, only if the rule tree misuses
`SameAsOther`). -/
def ScoreStats.new (rules : Rule) : Option ScoreStats :=
  rules.property_conditions_product.map fun cols => ⟨0, 0, fun _ => 0, cols⟩

/-- A model of the `f64` values arising in the scorer: exact finite
rationals plus the special values produced by division. -/
inductive F64 where
  | fin (q : Rat)
  | nan
  | inf (pos : Bool)
deriving DecidableEq

/-- `f64` division on the values arising here: division of a finite value
by zero yields NaN (for `0.0 / 0.0`) or a signed infinity, never `0`. -/
def F64.div : F64 → F64 → F64
  | .fin a, .fin b =>
    if b = 0 then (if a = 0 then .nan else .inf (decide (0 < a))) else .fin (a / b)
  | _, _ => .nan

/-- `ScoreStats::avg_score`: `self.score / self.domain_size as f64`,
with no guard against `domain_size == 0`. -/
def ScoreStats.avg_score (s : ScoreStats) : F64 :=
  F64.div (.fin s.score) (.fin (s.domain_size : Rat))

/-- The `AvgScore` value written as the first field of `ScoreStats::to_csv`
(which, unlike `avg_score`, guards `domain_size == 0`). -/
def ScoreStats.csvAvgScore (s : ScoreStats) : F64 :=
  if s.domain_size > 0 then .fin (s.score / (s.domain_size : Rat)) else .fin 0

/-- `ScoreStats::failed_due_to`. -/
def ScoreStats.failed_due_to (s : ScoreStats) (p : Property) (c : Condition) : ScoreStats :=
  { s with
    failure_reasons :=
      Function.update s.failure_reasons (p, c) (s.failure_reasons (p, c) + 1) }

/-- `dsl.rs` `struct Log`. -/
structure Log where
  score : Rat
  log : String

/-- The error states of the rule engine, one per distinct panic site. -/
inductive RuleErr where
  | assertDelta
  | evalPanic
  | mixedBool
  | notBools
  | reRunAssert
  | reRunPanic
  | sameAsOtherMisuse
  | fuelOut
deriving DecidableEq

/-- The `let success = match self.condition { .. }` computation of
`Rule::compute_internal`: `BothAgree` compares the two values; `BothAreTrue`
requires two booleans and panics (`mixedBool`) on a mixed pair. -/
def condResult (c : Condition) (p : Property) (inp : Input) : Except RuleErr Bool :=
  match c with
  | .BothAgree =>
    match p.eval inp.test, p.eval inp.gt with
    | some v1, some v2 => .ok (v1 = v2)
    | _, _ => .error .evalPanic
  | .BothAreTrue =>
    match p.eval inp.test, p.eval inp.gt with
    | some (.Bool true), some (.Bool true) => .ok true
    | some (.Bool false), some (.Bool false) => .ok false
    | some (.Bool _), some (.Bool _) => .error .mixedBool
    | some _, some _ => .error .notBools
    | _, _ => .error .evalPanic

/-- One side of the `Proceed::ReRunRuleOnRecursiveCPointee` handling: assert
the side is a C pointer, then replace its index by the recursive
pointee. -/
def reRunSide (types : List StructuralType) (idx : Option Nat) : Except RuleErr (Option Nat) :=
  match idx.bind fun i => types[i]? with
  | none => .error .evalPanic
  | some s =>
    if ¬ is_pointer s false then .error .reRunAssert
    else
      match recursive_pointee (idx.getD 0) types false with
      | some p => .ok (some p)
      | none => .error .reRunPanic

/-- `Rule::compute_internal`, with explicit fuel for the re-run-at-root
back-edge (each recursive call consumes one unit).  Returns the updated
log and stats, or the panic it hit. -/
def Rule.compute_internal :
    Nat → Rule → Input → Log → ScoreStats → Rule → Except RuleErr (Log × ScoreStats)
  | 0, _, _, _, _, _ => .error .fuelOut
  | fuel + 1, .mk prop cond fd fp td tp, inp, log, stats, top_level =>
    if 0 ≤ td ∧ fd ≤ 0 then
      match condResult cond prop inp with
      | .error e => .error e
      | .ok success =>
        let scoremod := if success then td else fd
        let proceed := if success then tp else fp
        let tag :=
          match cond with
          | .BothAgree => "Agree" ++ prop.fmt
          | .BothAreTrue => prop.fmt
        let log2 : Log :=
          ⟨log.score + scoremod, log.log ++ (if success then " " else " !") ++ tag⟩
        match proceed with
        | .Halt =>
          if success then .ok (log2, stats)
          else .ok (⟨log2.score, log2.log ++ " HALT"⟩, stats.failed_due_to prop cond)
        | .Continue rule => Rule.compute_internal fuel rule inp log2 stats top_level
        | .SameAsOther =>
          if success then .error .sameAsOtherMisuse
          else
            match tp with
            | .Continue rule => Rule.compute_internal fuel rule inp log2 stats top_level
            | _ => .error .sameAsOtherMisuse
        | .ReRunRuleOnRecursiveCPointee =>
          match reRunSide inp.types.test inp.idxs.test with
          | .error e => .error e
          | .ok ti =>
            match reRunSide inp.types.gt inp.idxs.gt with
            | .error e => .error e
            | .ok gi =>
              Rule.compute_internal fuel top_level ⟨inp.types, ⟨ti, gi⟩⟩ log2 stats top_level
    else .error .assertDelta

/-- Unfolding lemma for `compute_internal` at positive fuel (stated by hand:
the automatic equation generator does not handle the assert guard around
the inner matches). -/
theorem compute_internal_succ (fuel : Nat) (prop : Property) (cond : Condition)
    (fd : Rat) (fp : Proceed) (td : Rat) (tp : Proceed) (inp : Input) (log : Log)
    (stats : ScoreStats) (top_level : Rule) :
    Rule.compute_internal (fuel + 1) (.mk prop cond fd fp td tp) inp log stats top_level =
      (if 0 ≤ td ∧ fd ≤ 0 then
        match condResult cond prop inp with
        | .error e => .error e
        | .ok success =>
          let scoremod := if success then td else fd
          let proceed := if success then tp else fp
          let tag :=
            match cond with
            | .BothAgree => "Agree" ++ prop.fmt
            | .BothAreTrue => prop.fmt
          let log2 : Log :=
            ⟨log.score + scoremod, log.log ++ (if success then " " else " !") ++ tag⟩
          match proceed with
          | .Halt =>
            if success then .ok (log2, stats)
            else .ok (⟨log2.score, log2.log ++ " HALT"⟩, stats.failed_due_to prop cond)
          | .Continue rule => Rule.compute_internal fuel rule inp log2 stats top_level
          | .SameAsOther =>
            if success then .error .sameAsOtherMisuse
            else
              match tp with
              | .Continue rule => Rule.compute_internal fuel rule inp log2 stats top_level
              | _ => .error .sameAsOtherMisuse
          | .ReRunRuleOnRecursiveCPointee =>
            match reRunSide inp.types.test inp.idxs.test with
            | .error e => .error e
            | .ok ti =>
              match reRunSide inp.types.gt inp.idxs.gt with
              | .error e => .error e
              | .ok gi =>
                Rule.compute_internal fuel top_level ⟨inp.types, ⟨ti, gi⟩⟩ log2 stats top_level
      else .error .assertDelta) := rfl

/-- `Rule::compute_one`: run the tree from the root, then add the
variable's score to the stats and bump the domain size. -/
def Rule.compute_one (fuel : Nat) (self : Rule) (inp : Input) (stats : ScoreStats) :
    Except RuleErr (Rat × String × ScoreStats) :=
  match Rule.compute_internal fuel self inp ⟨0, ""⟩ stats self with
  | .error e => .error e
  | .ok (log, stats2) =>
    .ok (log.score, log.log,
      { stats2 with score := stats2.score + log.score, domain_size := stats2.domain_size + 1 })

/-- The score component of a `compute_one` result. -/
def scoreOf (r : Except RuleErr (Rat × String × ScoreStats)) : Option Rat :=
  match r with
  | .ok (s, _, _) => some s
  | .error _ => none

/-- The stats component of a `compute_one` result. -/
def statsOf (r : Except RuleErr (Rat × String × ScoreStats)) : Option ScoreStats :=
  match r with
  | .ok (_, _, s) => some s
  | .error _ => none

/-- An `int32`-like primitive structural type: no pointer, no struct
fields, recognized as the primitive union `{"int32"}`. -/
def int32T : StructuralType := ⟨none, [], some ["int32"], some 4⟩

/-- The exact-match input of spec scenario 1: truth `x: int32`, candidate
`x: int32`. -/
def inpC1 : Input := ⟨⟨[int32T], [int32T]⟩, ⟨some 0, some 0⟩⟩

/-- The cyclic input of spec scenario 6: truth and candidate are both the
self-referential pointer. -/
def inpC2 : Input := ⟨⟨[selfPtr], [selfPtr]⟩, ⟨some 0, some 0⟩⟩

/-- The preorder column list of the built-in rule tree. -/
def RULEScols : List (Property × Condition) :=
  [(.IsDefined, .BothAgree), (.IsCPointer, .BothAgree), (.CPointerLevel, .BothAgree),
   (.IsCPointer, .BothAreTrue), (.IsCStruct, .BothAgree),
   (.SignIgnoredCPrimitive, .BothAgree), (.CPrimitive, .BothAgree)]

/-- A freshly created `ScoreStats::new(&RULES)`. -/
def statsNew : ScoreStats := ⟨0, 0, fun _ => 0, RULEScols⟩

/-- `ScoreStats::new(&RULES)` succeeds and produces the fresh stats. -/
theorem ScoreStats.new_RULES : ScoreStats.new RULES = some statsNew := rfl

/-- C1 counterexample: on the exact-match input (truth `x: int32`,
candidate `x: int32`) the per-variable score is not `5.0`: six rule levels
credit `1.0` each (`IsDefined`, `IsCPointer`, `CPointerLevel`, `IsCStruct`,
`SignIgnoredCPrimitive`, `CPrimitive`; the `BothAreTrue` gate adds `0.0`),
so the score is `6.0`. -/
theorem c1_counterexample :
    scoreOf (Rule.compute_one 20 RULES inpC1 statsNew) ≠ some 5 := by
  have h : scoreOf (Rule.compute_one 20 RULES inpC1 statsNew)
      = some ((0 : Rat) + 1 + 1 + 1 + 0 + 1 + 1 + 1) := rfl
  rw [h]
  simp only [ne_eq, Option.some.injEq]
  norm_num

/-- C1 (amended): on the exact-match input the built-in rule tree yields a
per-variable score of exactly `6.0` (one credit per crediting rule level
through `CPrimitive`; the `BothAreTrue` gate contributes `0.0`), domain
size 1, average score `6.0`, and every failure-reason count equal to 0. -/
theorem c1_exact_match_scores_six :
    scoreOf (Rule.compute_one 20 RULES inpC1 statsNew) = some 6 ∧
      (statsOf (Rule.compute_one 20 RULES inpC1 statsNew)).map
          (fun s => s.domain_size) = some 1 ∧
      (statsOf (Rule.compute_one 20 RULES inpC1 statsNew)).map
          (fun s => s.avg_score) = some (.fin 6) ∧
      ∀ pc, (statsOf (Rule.compute_one 20 RULES inpC1 statsNew)).map
          (fun s => s.failure_reasons pc) = some 0 := by
  have h : statsOf (Rule.compute_one 20 RULES inpC1 statsNew)
      = some ⟨(0 : Rat) + ((0 : Rat) + 1 + 1 + 1 + 0 + 1 + 1 + 1), 1, fun _ => 0, RULEScols⟩ :=
    rfl
  refine ⟨?_, ?_, ?_, ?_⟩
  · have h2 : scoreOf (Rule.compute_one 20 RULES inpC1 statsNew)
        = some ((0 : Rat) + 1 + 1 + 1 + 0 + 1 + 1 + 1) := rfl
    rw [h2]
    norm_num
  · rw [h]; rfl
  · rw [h]
    simp [ScoreStats.avg_score, F64.div]
    norm_num
  · intro pc
    rw [h]
    rfl

/-- C2 counterexample: on the self-referential-pointer input the rule
engine does _not_ halt via the ordinary branches: after `CPointerLevel`
agrees (`Err(1)` on both sides) and the `BothAreTrue` gate sees two
pointers, the re-run-on-recursive-pointee step panics, because
`recursive_pointee` calls `pointer_level(..).unwrap()` on the cyclic
chain's `Err(1)`. -/
theorem c2_counterexample :
    Rule.compute_one 20 RULES inpC2 statsNew = .error .reRunPanic := rfl

/-- C2 (amended): on the self-referential-pointer input, `CPointerLevel`
evaluates to `Err(1)` on both sides and the two values agree, and for every
sufficient fuel the traversal deterministically ends in the
`recursive_pointee` panic (the `unwrap` of `pointer_level`'s `Err`): it
terminates, but through a program error rather than the ordinary
branches. -/
theorem c2_cycle_panics :
    Property.eval .CPointerLevel inpC2.test = some (.ResU32U32 (.err 1)) ∧
      Property.eval .CPointerLevel inpC2.gt = some (.ResU32U32 (.err 1)) ∧
      condResult .BothAgree .CPointerLevel inpC2 = .ok true ∧
      ∀ fuel, 4 < fuel → Rule.compute_one fuel RULES inpC2 statsNew = .error .reRunPanic := by
  refine ⟨rfl, rfl, rfl, ?_⟩
  intro fuel hfuel
  obtain ⟨k, rfl⟩ : ∃ k, fuel = k + 5 := ⟨fuel - 5, by omega⟩
  rfl

/-- Witness for C2 (amended) at fuel 5. -/
theorem c2_witness : Rule.compute_one 5 RULES inpC2 statsNew = .error .reRunPanic :=
  c2_cycle_panics.2.2.2 5 (by norm_num)

/-- C4 counterexample: the freshly created stats have `domain_size = 0`,
and the `avg_score` accessor does not report `0` there: it computes
`0.0 / 0.0`, which is NaN. -/
theorem c4_counterexample :
    statsNew.domain_size = 0 ∧ statsNew.avg_score = F64.nan ∧ statsNew.avg_score ≠ F64.fin 0 := by
  refine ⟨rfl, ?_, ?_⟩
  · simp [statsNew, ScoreStats.avg_score, F64.div]
  · simp [statsNew, ScoreStats.avg_score, F64.div]

/-- C4 (amended): for every `ScoreStats` value, the `AvgScore` field of the
CSV row equals `total_score / domain_size` when `domain_size > 0` and `0`
otherwise; the `avg_score` accessor also equals `total_score / domain_size`
when `domain_size > 0`, but when `domain_size = 0` it performs the division
anyway and yields NaN (for total `0`) or a signed infinity — never `0`. -/
theorem c4_avg_score (s : ScoreStats) :
    (0 < s.domain_size →
      s.avg_score = .fin (s.score / (s.domain_size : Rat)) ∧
        s.csvAvgScore = .fin (s.score / (s.domain_size : Rat))) ∧
    (s.domain_size = 0 →
      s.csvAvgScore = .fin 0 ∧
        s.avg_score = (if s.score = 0 then F64.nan else F64.inf (decide (0 < s.score)))) := by
  constructor
  · intro hpos
    have hne : ((s.domain_size : Rat)) ≠ 0 := by
      exact_mod_cast Nat.pos_iff_ne_zero.mp hpos
    constructor
    · simp [ScoreStats.avg_score, F64.div, hne]
    · simp [ScoreStats.csvAvgScore, hpos]
  · intro hz
    constructor
    · simp [ScoreStats.csvAvgScore, hz]
    · simp [ScoreStats.avg_score, F64.div, hz]

/-- Witness for C4 (amended) at the fresh stats (`domain_size = 0`). -/
theorem c4_witness : statsNew.csvAvgScore = F64.fin 0 ∧ statsNew.avg_score = F64.nan := by
  have h := (c4_avg_score statsNew).2 rfl
  refine ⟨h.1, ?_⟩
  have h2 := h.2
  simpa [statsNew] using h2

/-- All 18 `(Property, Condition)` pairs. -/
def allPCs : List (Property × Condition) :=
  [Property.IsDefined, .IsCPointer, .CPointerLevel, .IsSTPointer, .STPointerLevel,
   .Size, .IsCStruct, .SignIgnoredCPrimitive, .CPrimitive].flatMap
    fun p => [(p, Condition.BothAgree), (p, Condition.BothAreTrue)]

theorem mem_allPCs (pc : Property × Condition) : pc ∈ allPCs := by
  obtain ⟨p, c⟩ := pc
  cases p <;> cases c <;> simp [allPCs]

theorem allPCs_nodup : allPCs.Nodup := by decide

/-- The total of all failure-reason counters. -/
def failSum (s : ScoreStats) : Nat := (allPCs.map s.failure_reasons).sum

/-- Updating a counting function at a member of a duplicate-free list bumps
the summed counts by exactly one. -/
theorem sum_map_update_mem {α : Type} [DecidableEq α] :
    ∀ (l : List α) (f : α → Nat) (a : α), l.Nodup → a ∈ l →
      (l.map (Function.update f a (f a + 1))).sum = (l.map f).sum + 1
  | [], _, _, _, hmem => absurd hmem (by simp)
  | x :: xs, f, a, hnd, hmem => by
    have hx : x ∉ xs := (List.nodup_cons.mp hnd).1
    have hnd2 : xs.Nodup := (List.nodup_cons.mp hnd).2
    rcases List.mem_cons.mp hmem with rfl | hmem2
    · have htail : xs.map (Function.update f a (f a + 1)) = xs.map f := by
        apply List.map_congr_left
        intro y hy
        have : y ≠ a := fun h => hx (h ▸ hy)
        exact Function.update_noteq this _ _
      simp only [List.map_cons, List.sum_cons, htail, Function.update_same]
      omega
    · have hxa : x ≠ a := fun h => hx (h ▸ hmem2)
      have hhead : Function.update f a (f a + 1) x = f x := Function.update_noteq hxa _ _
      have htail := sum_map_update_mem xs f a hnd2 hmem2
      simp only [List.map_cons, List.sum_cons, hhead, htail]
      omega

theorem failSum_failed_due_to (s : ScoreStats) (p : Property) (c : Condition) :
    failSum (s.failed_due_to p c) = failSum s + 1 :=
  sum_map_update_mem allPCs s.failure_reasons (p, c) allPCs_nodup (mem_allPCs (p, c))

theorem failSum_statsNew : failSum statsNew = 0 := rfl

/-- `compute_internal` never touches the score, the domain size or the
column list of the stats, and bumps the total of the failure counters by at
most one (a traversal takes at most one failing `Halt`). -/
theorem compute_internal_stats (top : Rule) :
    ∀ fuel r inp log stats log2 stats2,
      Rule.compute_internal fuel r inp log stats top = .ok (log2, stats2) →
      stats2.domain_size = stats.domain_size ∧ stats2.score = stats.score ∧
        stats2.columns = stats.columns ∧ failSum stats2 ≤ failSum stats + 1 := by
  intro fuel
  induction fuel with
  | zero => intro r inp log stats log2 stats2 h; simp [Rule.compute_internal] at h
  | succ fuel ih =>
    rintro ⟨prop, cond, fd, fp, td, tp⟩ inp log stats log2 stats2 h
    rw [compute_internal_succ] at h
    split at h
    · -- delta asserts hold
      match hc : condResult cond prop inp with
      | .error e => rw [hc] at h; simp at h
      | .ok success =>
        rw [hc] at h
        simp only at h
        split at h
        · -- Halt
          split at h
          · cases h; exact ⟨rfl, rfl, rfl, by omega⟩
          · cases h
            refine ⟨rfl, rfl, rfl, ?_⟩
            rw [failSum_failed_due_to]
        · -- Continue
          exact ih _ _ _ _ _ _ h
        · -- SameAsOther
          split at h
          · simp at h
          · split at h
            · exact ih _ _ _ _ _ _ h
            · simp at h
        · -- ReRunRuleOnRecursiveCPointee
          split at h
          · simp at h
          · split at h
            · simp at h
            · exact ih _ _ _ _ _ _ h
    · simp at h

/-- A sequence of `compute_one` calls (the evaluator harness loop),
stopping (`none`) if any call panics. -/
def runAll (fuel : Nat) (rules : Rule) : List Input → ScoreStats → Option ScoreStats
  | [], stats => some stats
  | inp :: rest, stats =>
    match Rule.compute_one fuel rules inp stats with
    | .ok (_, _, stats2) => runAll fuel rules rest stats2
    | .error _ => none

/-- A single successful `compute_one` bumps the domain size by exactly one
and the failure total by at most one. -/
theorem compute_one_stats (fuel : Nat) (self : Rule) (inp : Input) (stats : ScoreStats)
    (sc : Rat) (tr : String) (stats2 : ScoreStats)
    (h : Rule.compute_one fuel self inp stats = .ok (sc, tr, stats2)) :
    stats2.domain_size = stats.domain_size + 1 ∧ failSum stats2 ≤ failSum stats + 1 := by
  rw [Rule.compute_one] at h
  split at h
  · simp at h
  · rename_i log stats3 heq
    obtain ⟨hd, _, _, hf⟩ := compute_internal_stats self fuel self inp ⟨0, ""⟩ stats _ _ heq
    cases h
    exact ⟨by simp [hd], by simpa [failSum] using hf⟩

theorem runAll_stats (fuel : Nat) (rules : Rule) :
    ∀ (inps : List Input) (stats stats2 : ScoreStats),
      runAll fuel rules inps stats = some stats2 →
      stats2.domain_size = stats.domain_size + inps.length ∧
        failSum stats2 ≤ failSum stats + inps.length
  | [], stats, stats2, h => by
    cases h
    simp
  | inp :: rest, stats, stats2, h => by
    rw [runAll] at h
    split at h
    · rename_i sc tr stats3 heq
      obtain ⟨hd, hf⟩ := compute_one_stats fuel rules inp stats sc tr stats3 heq
      obtain ⟨hd2, hf2⟩ := runAll_stats fuel rules rest stats3 stats2 h
      constructor
      · rw [hd2, hd]; simp [List.length_cons]; omega
      · simp only [List.length_cons]; omega
    · simp at h

/-- C10: every successful `compute_one` call increments `domain_size` by
exactly 1 and the total of all failure-reason counters by at most 1 (a
traversal takes at most one failing `Halt`); consequently, after a
sequence of `n` successful `compute_one` calls on a freshly created
`ScoreStats`, `domain_size = n` and the failure total is at most `n`. -/
theorem c10_compute_one_increments :
    (∀ fuel self inp stats sc tr stats2,
        Rule.compute_one fuel self inp stats = .ok (sc, tr, stats2) →
        stats2.domain_size = stats.domain_size + 1 ∧ failSum stats2 ≤ failSum stats + 1) ∧
    (∀ fuel inps stats2, runAll fuel RULES inps statsNew = some stats2 →
        stats2.domain_size = inps.length ∧ failSum stats2 ≤ inps.length) := by
  constructor
  · intro fuel self inp stats sc tr stats2 h
    exact compute_one_stats fuel self inp stats sc tr stats2 h
  · intro fuel inps stats2 h
    obtain ⟨hd, hf⟩ := runAll_stats fuel RULES inps statsNew stats2 h
    constructor
    · simpa [statsNew] using hd
    · simpa [failSum_statsNew] using hf

/-- Witness for C10: one run over the single exact-match input gives
domain size 1 and failure total at most 1. -/
theorem c10_witness :
    (⟨(0 : Rat) + ((0 : Rat) + 1 + 1 + 1 + 0 + 1 + 1 + 1), 1, fun _ => 0,
        RULEScols⟩ : ScoreStats).domain_size = [inpC1].length ∧
      failSum ⟨(0 : Rat) + ((0 : Rat) + 1 + 1 + 1 + 0 + 1 + 1 + 1), 1, fun _ => 0,
        RULEScols⟩ ≤ [inpC1].length :=
  c10_compute_one_increments.2 20 [inpC1] _ rfl

/-- `BothAgree` never raises the mixed-booleans error. -/
theorem condResult_BothAgree_ne_mixed (p : Property) (inp : Input) :
    condResult .BothAgree p inp ≠ .error .mixedBool := by
  rw [condResult]
  rcases p.eval inp.test with _ | v1 <;> rcases p.eval inp.gt with _ | v2 <;> simp

/-- A successful `BothAgree` with result `true` means both sides evaluated
to the same defined value. -/
theorem condResult_BothAgree_ok_true (p : Property) (inp : Input)
    (h : condResult .BothAgree p inp = .ok true) :
    ∃ v, p.eval inp.test = some v ∧ p.eval inp.gt = some v := by
  rw [condResult] at h
  rcases h1 : p.eval inp.test with _ | v1 <;> rcases h2 : p.eval inp.gt with _ | v2 <;>
    rw [h1, h2] at h <;> simp at h
  exact ⟨v1, rfl, by rw [h]⟩

/-- If both sides of a `BothAreTrue` agree on the evaluated value, the
mixed-booleans error cannot fire. -/
theorem condResult_BothAreTrue_agreed_ne_mixed (p : Property) (inp : Input) (v : Value)
    (h1 : p.eval inp.test = some v) (h2 : p.eval inp.gt = some v) :
    condResult .BothAreTrue p inp ≠ .error .mixedBool := by
  rw [condResult, h1, h2]
  rcases v with b | _ | _ | _
  · cases b <;> simp
  all_goals simp

/-- The re-run-on-pointee step never raises the mixed-booleans error. -/
theorem reRunSide_ne_mixed (types : List StructuralType) (idx : Option Nat) :
    reRunSide types idx ≠ .error .mixedBool := by
  rw [reRunSide]
  split
  · simp
  · split
    · simp
    · split <;> simp

/-- The `CPrimitive` leaf of the built-in tree never raises the
mixed-booleans error. -/
theorem RULES7_ne_mixed (fuel : Nat) (inp : Input) (log : Log) (stats : ScoreStats)
    (top : Rule) :
    Rule.compute_internal fuel RULES7 inp log stats top ≠ .error .mixedBool := by
  cases fuel with
  | zero => simp [Rule.compute_internal]
  | succ fuel =>
    rw [RULES7, compute_internal_succ, if_pos (by norm_num)]
    intro h
    split at h
    · rename_i e heq
      cases h
      exact condResult_BothAgree_ne_mixed _ _ heq
    · rename_i success heq
      cases success <;> simp at h

/-- The `SignIgnoredCPrimitive` node of the built-in tree never raises the
mixed-booleans error. -/
theorem RULES6_ne_mixed (fuel : Nat) (inp : Input) (log : Log) (stats : ScoreStats)
    (top : Rule) :
    Rule.compute_internal fuel RULES6 inp log stats top ≠ .error .mixedBool := by
  cases fuel with
  | zero => simp [Rule.compute_internal]
  | succ fuel =>
    rw [RULES6, compute_internal_succ, if_pos (by norm_num)]
    intro h
    split at h
    · rename_i e heq
      cases h
      exact condResult_BothAgree_ne_mixed _ _ heq
    · rename_i success heq
      cases success
      · simp at h
      · simp only [if_pos] at h
        exact RULES7_ne_mixed fuel inp _ stats top h

/-- The `IsCStruct` node of the built-in tree never raises the
mixed-booleans error. -/
theorem RULES5_ne_mixed (fuel : Nat) (inp : Input) (log : Log) (stats : ScoreStats)
    (top : Rule) :
    Rule.compute_internal fuel RULES5 inp log stats top ≠ .error .mixedBool := by
  cases fuel with
  | zero => simp [Rule.compute_internal]
  | succ fuel =>
    rw [RULES5, compute_internal_succ, if_pos (by norm_num)]
    intro h
    split at h
    · rename_i e heq
      cases h
      exact condResult_BothAgree_ne_mixed _ _ heq
    · rename_i success heq
      cases success
      · simp at h
      · simp only [if_pos] at h
        exact RULES6_ne_mixed fuel inp _ stats top h

/-- The `BothAreTrue` gate of the built-in tree never raises the
mixed-booleans error, given that the two sides agreed on `IsCPointer`
earlier on the unchanged input; nor does anything it continues into. -/
theorem RULES4_ne_mixed (fuel : Nat) (inp : Input) (log : Log) (stats : ScoreStats)
    (Hrec : ∀ m, m < fuel → ∀ (inp2 : Input) (log2 : Log) (stats2 : ScoreStats),
      Rule.compute_internal m RULES inp2 log2 stats2 RULES ≠ .error .mixedBool)
    (hv : ∃ v, Property.eval .IsCPointer inp.test = some v ∧
      Property.eval .IsCPointer inp.gt = some v) :
    Rule.compute_internal fuel RULES4 inp log stats RULES ≠ .error .mixedBool := by
  obtain ⟨v, h1, h2⟩ := hv
  cases fuel with
  | zero => simp [Rule.compute_internal]
  | succ fuel =>
    rw [RULES4, compute_internal_succ, if_pos (by norm_num)]
    intro h
    split at h
    · rename_i e heq
      cases h
      exact condResult_BothAreTrue_agreed_ne_mixed _ _ v h1 h2 heq
    · rename_i success heq
      cases success
      · simp only [if_neg] at h
        exact RULES5_ne_mixed fuel inp _ stats RULES h
      · simp only [if_pos] at h
        split at h
        · rename_i e heq2
          cases h
          exact reRunSide_ne_mixed _ _ heq2
        · split at h
          · rename_i e heq2
            cases h
            exact reRunSide_ne_mixed _ _ heq2
          · exact Hrec fuel (by omega) _ _ stats h

/-- The `CPointerLevel` node of the built-in tree never raises the
mixed-booleans error, under the same agreement knowledge. -/
theorem RULES3_ne_mixed (fuel : Nat) (inp : Input) (log : Log) (stats : ScoreStats)
    (Hrec : ∀ m, m < fuel → ∀ (inp2 : Input) (log2 : Log) (stats2 : ScoreStats),
      Rule.compute_internal m RULES inp2 log2 stats2 RULES ≠ .error .mixedBool)
    (hv : ∃ v, Property.eval .IsCPointer inp.test = some v ∧
      Property.eval .IsCPointer inp.gt = some v) :
    Rule.compute_internal fuel RULES3 inp log stats RULES ≠ .error .mixedBool := by
  cases fuel with
  | zero => simp [Rule.compute_internal]
  | succ fuel =>
    rw [RULES3, compute_internal_succ, if_pos (by norm_num)]
    intro h
    split at h
    · rename_i e heq
      cases h
      exact condResult_BothAgree_ne_mixed _ _ heq
    · rename_i success heq
      cases success
      · simp at h
      · simp only [if_pos] at h
        exact RULES4_ne_mixed fuel inp _ stats
          (fun m hm => Hrec m (by omega)) hv h

/-- The `IsCPointer`/`BothAgree` node of the built-in tree never raises the
mixed-booleans error: its own success certifies the agreement that guards
the `BothAreTrue` gate below it. -/
theorem RULES2_ne_mixed (fuel : Nat) (inp : Input) (log : Log) (stats : ScoreStats)
    (Hrec : ∀ m, m < fuel → ∀ (inp2 : Input) (log2 : Log) (stats2 : ScoreStats),
      Rule.compute_internal m RULES inp2 log2 stats2 RULES ≠ .error .mixedBool) :
    Rule.compute_internal fuel RULES2 inp log stats RULES ≠ .error .mixedBool := by
  cases fuel with
  | zero => simp [Rule.compute_internal]
  | succ fuel =>
    rw [RULES2, compute_internal_succ, if_pos (by norm_num)]
    intro h
    split at h
    · rename_i e heq
      cases h
      exact condResult_BothAgree_ne_mixed _ _ heq
    · rename_i success heq
      cases success
      · simp at h
      · simp only [if_pos] at h
        exact RULES3_ne_mixed fuel inp _ stats
          (fun m hm => Hrec m (by omega))
          (condResult_BothAgree_ok_true _ _ heq) h

/-- Traversing the whole built-in tree never raises the mixed-booleans
error, for any input, log, stats and fuel. -/
theorem RULES_ne_mixed :
    ∀ (fuel : Nat) (inp : Input) (log : Log) (stats : ScoreStats),
      Rule.compute_internal fuel RULES inp log stats RULES ≠ .error .mixedBool := by
  intro fuel
  induction fuel using Nat.strong_induction_on with
  | _ fuel IH =>
    intro inp log stats
    cases fuel with
    | zero => simp [Rule.compute_internal]
    | succ fuel =>
      rw [show RULES = Rule.mk .IsDefined .BothAgree 0 .Halt 1 (.Continue RULES2) from rfl,
        compute_internal_succ, if_pos (by norm_num)]
      intro h
      split at h
      · rename_i e heq
        cases h
        exact condResult_BothAgree_ne_mixed _ _ heq
      · rename_i success heq
        cases success
        · simp at h
        · simp only [if_pos] at h
          exact RULES2_ne_mixed fuel inp _ stats
            (fun m hm inp2 log2 stats2 => IH m (by omega) inp2 log2 stats2) h

/-- C7: evaluating a `BothAreTrue` condition on two boolean property values
succeeds iff both are true, fails iff both are false, and a mixed pair is
the fatal `mixedBool` program error; and in the built-in rule tree — where
the `BothAreTrue` node on `IsCPointer` is gated behind the prior
`BothAgree` check on `IsCPointer` — that error branch is unreachable for
every input. -/
theorem c7_both_are_true_gated :
    (∀ (p : Property) (inp : Input) (b1 b2 : Bool),
      p.eval inp.test = some (.Bool b1) → p.eval inp.gt = some (.Bool b2) →
      condResult .BothAreTrue p inp =
        (if b1 = b2 then .ok b1 else .error .mixedBool)) ∧
    (∀ (fuel : Nat) (inp : Input) (stats : ScoreStats),
      Rule.compute_one fuel RULES inp stats ≠ .error .mixedBool) := by
  constructor
  · intro p inp b1 b2 h1 h2
    rw [condResult, h1, h2]
    cases b1 <;> cases b2 <;> rfl
  · intro fuel inp stats h
    rw [Rule.compute_one] at h
    split at h
    · rename_i e heq
      cases h
      exact RULES_ne_mixed fuel inp ⟨0, ""⟩ stats heq
    · simp at h

/-- Witness for C7 at the exact-match input: both sides of the gate
evaluate `IsCPointer` to `false`, so the condition reports `ok false`, and
the full traversal does not raise the mixed-booleans error. -/
theorem c7_witness :
    condResult .BothAreTrue .IsCPointer inpC1 = .ok false ∧
      Rule.compute_one 20 RULES inpC1 statsNew ≠ .error .mixedBool := by
  constructor
  · have h := c7_both_are_true_gated.1 .IsCPointer inpC1 false false rfl rfl
    simpa using h
  · exact c7_both_are_true_gated.2 20 inpC1 statsNew

/-- `job.rs` `enum JobType`, in declaration (topological) order. -/
inductive JobType where
  | ConfirmBasicPreRequisites
  | DecompressBinary
  | StripBinary
  | LiftPCode
  | ExtractVariables
  | CollectGroundTruthTypes
  | ExtractGroundTruthStructuralTypes
  | RunTRex
  | RunGhidraPart1
  | RunGhidraPart2
  | RunBaselineTrivial
  | DecompilationWithVarInputs
  | RunReSymPart1
  | RunReSymPart2
  | RunReSymPart3
  | RunReSymPart4
  | RunReSymPart5
  | RunReSymPart6
  | ScoreTRex
  | ScoreGhidra
  | ScoreBaselineTrivial
  | ScoreReSym
  | GenerousScoreTRex
  | GenerousScoreGhidra
  | GenerousScoreBaselineTrivial
  | GenerousScoreReSym
  | ComputeStandardMetrics
  | SummarizeAllMetrics
deriving DecidableEq

/-- `JobType::can_cache`. -/
def JobType.can_cache : JobType → Bool
  | .ConfirmBasicPreRequisites | .SummarizeAllMetrics => false
  | _ => true

/-- `JobType::number_of_retries_allowed`: only the five Ghidra-flakiness
kinds get retries. -/
def JobType.number_of_retries_allowed : JobType → Nat
  | .LiftPCode | .ExtractVariables | .DecompilationWithVarInputs
  | .CollectGroundTruthTypes | .RunGhidraPart1 => 2
  | _ => 0

/-- The Ghidra version marker file used in the cache manifests. -/
def GHIDRA : String := "/opt/ghidra/Ghidra/application.properties"

/-- `Job::inputs_dependencies_and_outputs`: the cache manifest
`(inputs, code-dependency globs, outputs)` for a job of the given kind at
the given base path; `resym` models whether `ENABLE_RESYM` is set (it only
affects the `ComputeStandardMetrics` inputs). -/
def inputs_dependencies_and_outputs (typ : JobType) (base : String) (resym : Bool) :
    List String × List String × List String :=
  let w := fun (e : String) => base ++ "." ++ e
  match typ with
  | .DecompressBinary => ([w "binar.xz"], [], [w "binar"])
  | .StripBinary => ([w "binar"], [], [w "ndbg-bin"])
  | .LiftPCode =>
    ([w "ndbg-bin"], [GHIDRA, "./**/ghidra_headless_scripts/src/PCodeExporter.java"],
      [w "lifted"])
  | .ExtractVariables =>
    ([w "binar"], [GHIDRA, "./**/ghidra_headless_scripts/src/VariableExporter.java"],
      [w "vars"])
  | .DecompilationWithVarInputs =>
    ([w "ndbg-bin", w "vars"],
      [GHIDRA, "./**/ghidra_headless_scripts/src/DecompilationDumpWithVariableInputs.java"],
      [w "decompiled-wvi"])
  | .CollectGroundTruthTypes =>
    ([w "binar"],
      [GHIDRA, "./**/ghidra_headless_scripts/src/TypesExporter.java",
        "./**/ghidra_headless_scripts/src/TypesDump.java"],
      [w "types"])
  | .ExtractGroundTruthStructuralTypes =>
    ([w "types"], ["./trex/**/*.rs", "./utils/types2st/**/*.rs"], [w "gtst"])
  | .RunTRex =>
    ([w "lifted", w "vars"], ["./trex/**/*.rs"],
      [w "trex-st", w "trex-clike", w "trex-ssa", w "trex-log"])
  | .RunGhidraPart1 =>
    ([w "ndbg-bin", w "vars"],
      [GHIDRA, "./**/ghidra_headless_scripts/src/TypesRecovererWithVariableInputs.java",
        "./**/ghidra_headless_scripts/src/TypesDump.java"],
      [w "ghidra-wvi-types"])
  | .RunGhidraPart2 =>
    ([w "ghidra-wvi-types"], ["./trex/**/*.rs", "./utils/types2st/**/*.rs"],
      [w "ghidra-wvi-st"])
  | .RunReSymPart1 =>
    ([w "decompiled-wvi"],
      ["./tools/evaluating_resym/convert_to_resym_vardecoder_input_format.py"],
      [w "resym-vardecoder-inp"])
  | .RunReSymPart2 => ([w "resym-vardecoder-inp"], [], [w "resym-vardecoder-out"])
  | .RunReSymPart3 =>
    ([w "resym-vardecoder-out"],
      ["./tools/evaluating_resym/convert_to_resym_fielddecoder_input_format.py"],
      [w "resym-fielddecoder-inp"])
  | .RunReSymPart4 => ([w "resym-fielddecoder-inp"], [], [w "resym-fielddecoder-out"])
  | .RunReSymPart5 =>
    ([w "resym-fielddecoder-out"], ["./tools/evaluating_resym/process_resym_output.py"],
      [w "resym-types"])
  | .RunReSymPart6 =>
    ([w "resym-types"], ["./trex/**/*.rs", "./utils/types2st/**/*.rs"], [w "resym-st"])
  | .RunBaselineTrivial =>
    ([w "vars"], ["./tools/baselinetrivial/**/*.rs"], [w "baselinetrivial-st"])
  | .ScoreTRex =>
    ([w "gtst", w "trex-st"], ["./trex/**/*.rs", "./metrics/scorer/**/*.rs"],
      [w "scorer-trex"])
  | .ScoreGhidra =>
    ([w "gtst", w "ghidra-wvi-st"], ["./trex/**/*.rs", "./metrics/scorer/**/*.rs"],
      [w "scorer-ghidra-wvi"])
  | .ScoreBaselineTrivial =>
    ([w "gtst", w "baselinetrivial-st"], ["./trex/**/*.rs", "./metrics/scorer/**/*.rs"],
      [w "scorer-baselinetrivial"])
  | .ScoreReSym =>
    ([w "gtst", w "resym-st"], ["./trex/**/*.rs", "./metrics/scorer/**/*.rs"],
      [w "scorer-resym"])
  | .GenerousScoreTRex =>
    ([w "gtst", w "trex-st"], ["./trex/**/*.rs", "./metrics/scorer/**/*.rs"],
      [w "gen-scorer-trex"])
  | .GenerousScoreGhidra =>
    ([w "gtst", w "ghidra-wvi-st"], ["./trex/**/*.rs", "./metrics/scorer/**/*.rs"],
      [w "gen-scorer-ghidra-wvi"])
  | .GenerousScoreBaselineTrivial =>
    ([w "gtst", w "baselinetrivial-st"], ["./trex/**/*.rs", "./metrics/scorer/**/*.rs"],
      [w "gen-scorer-baselinetrivial"])
  | .GenerousScoreReSym =>
    ([w "gtst", w "resym-st"], ["./trex/**/*.rs", "./metrics/scorer/**/*.rs"],
      [w "gen-scorer-resym"])
  | .ComputeStandardMetrics =>
    ([w "gtst", w "baselinetrivial-st", w "ghidra-wvi-st", w "trex-st"] ++
        (if resym then [w "resym-st"] else []),
      ["./trex/**/*.rs", "./metrics/scorer/**/*.rs", "./metrics/standardized-scoring/**/*.rs"],
      [w "stdmetrics"])
  | .ConfirmBasicPreRequisites | .SummarizeAllMetrics => ([], [], [])

/-- C9 counterexample: `RunGhidraPart2` is claimed to be Ghidra-invoking
with 2 retries, but the code gives it 0 retries, and its
inputs/dependency manifest does not name the Ghidra
`application.properties` file (it is the pure types-conversion step). -/
theorem c9_counterexample :
    JobType.RunGhidraPart2.number_of_retries_allowed ≠ 2 ∧
      GHIDRA ∉ (inputs_dependencies_and_outputs .RunGhidraPart2 "base" false).2.1 := by
  constructor
  · decide
  · simp [inputs_dependencies_and_outputs, GHIDRA]

/-- C9 (amended): for every job kind (and every base path and ReSym env
setting), `number_of_retries_allowed` returns 2 exactly when the kind's
cache manifest names the Ghidra `application.properties` file among its
dependencies (`LiftPCode`, `ExtractVariables`,
`DecompilationWithVarInputs`, `CollectGroundTruthTypes`,
`RunGhidraPart1`), and 0 for every other kind — in particular
`RunGhidraPart2` does not invoke Ghidra and gets 0. -/
theorem c9_retries_iff_ghidra (typ : JobType) (base : String) (resym : Bool) :
    typ.number_of_retries_allowed =
      (if GHIDRA ∈ (inputs_dependencies_and_outputs typ base resym).2.1 then 2 else 0) := by
  cases typ <;> simp [inputs_dependencies_and_outputs, JobType.number_of_retries_allowed, GHIDRA]

/-- Decimal digit characters. -/
def digitChar (d : Nat) : Char :=
  match d with
  | 0 => '0' | 1 => '1' | 2 => '2' | 3 => '3' | 4 => '4'
  | 5 => '5' | 6 => '6' | 7 => '7' | 8 => '8' | _ => '9'

/-- Decimal digits of a natural, with fuel (`n + 1` is always enough). -/
def natDigsAux : Nat → Nat → List Char
  | 0, _ => []
  | fuel + 1, n =>
    if n < 10 then [digitChar n] else natDigsAux fuel (n / 10) ++ [digitChar (n % 10)]

/-- Decimal rendering of a natural (the `format!("{}")` of `u64`). -/
def natStr (n : Nat) : String := ⟨natDigsAux (n + 1) n⟩

/-- Modelled from the spec: the `format!("{}")` rendering of the `f64`
values in the CSV (Rust prints the shortest round-trip decimal; the exact
digits are irrelevant to the claims, which need only that the text
contains no newline and that the rendering is deterministic). -/
def F64.fmt : F64 → String
  | .fin q =>
    (if q < 0 then "-" else "") ++ natStr q.num.natAbs ++
      (if q.den = 1 then "" else "/" ++ natStr q.den)
  | .nan => "NaN"
  | .inf true => "inf"
  | .inf false => "-inf"

/-- `ScoreStats::csv_headings`. -/
def ScoreStats.csv_headings (s : ScoreStats) : String :=
  s.columns.foldl (fun res pc => res ++ "," ++ pc.1.fmt ++ "-Not" ++ pc.2.fmt)
    "AvgScore,NumVars"

/-- `ScoreStats::to_csv`. -/
def ScoreStats.to_csv (s : ScoreStats) : String :=
  s.columns.foldl (fun res pc => res ++ "," ++ natStr (s.failure_reasons pc))
    (s.csvAvgScore.fmt ++ "," ++ natStr s.domain_size)

/-- `needle.isPrefixOf hay` on character lists. -/
def isPrefixL : List Char → List Char → Bool
  | [], _ => true
  | _ :: _, [] => false
  | a :: as, b :: bs => a = b && isPrefixL as bs

/-- Rust `str::contains` (substring search) on character lists. -/
def containsL (needle : List Char) : List Char → Bool
  | [] => needle.isEmpty
  | c :: t => isPrefixL needle (c :: t) || containsL needle t

/-- Rust `String::contains(&needle)`. -/
def strContains (hay needle : String) : Bool := containsL needle.toList hay.toList

/-- Split a character list at every newline; the result is always
non-empty. -/
def splitOnNL : List Char → List (List Char)
  | [] => [[]]
  | c :: t =>
    match splitOnNL t with
    | s :: rest => if c = '\n' then [] :: s :: rest else (c :: s) :: rest
    | [] => [[]]

/-- Strip one trailing carriage return (Rust `str::lines` CRLF handling). -/
def stripCR (l : List Char) : List Char :=
  if l.getLast? = some '\r' then l.dropLast else l

/-- Rust `str::lines`: split on `\n`, drop the trailing empty segment, and
strip one trailing `\r` per line. -/
def rustLines (s : String) : List String :=
  let segs := splitOnNL s.toList
  let segs2 := if segs.getLast? = some [] then segs.dropLast else segs
  segs2.map fun l => ⟨stripCR l⟩

/-- Rust `str::split_once(',')`, keeping only the first component (what the
uniqueness check collects). -/
def firstField (s : String) : Option String :=
  if ',' ∈ s.toList then some ⟨s.toList.takeWhile (· ≠ ',')⟩ else none

/-- One character under Rust's `{:?}` string escaping: the common escapes
are mapped; all other characters pass through unchanged (in Rust some
further control characters become `\u{..}` escapes, equally
newline-free). -/
def escChar (c : Char) : List Char :=
  if c = '"' then ['\\', '"']
  else if c = '\\' then ['\\', '\\']
  else if c = '\n' then ['\\', 'n']
  else if c = '\r' then ['\\', 'r']
  else if c = '\t' then ['\\', 't']
  else [c]

/-- Rust `format!("{:?}", name)` for a string: quoted and escaped. -/
def debugQuote (name : String) : String :=
  "\"" ++ ⟨name.toList.flatMap escChar⟩ ++ "\""

/-- Rust `Vec::join("\n")`. -/
def joinNL : List String → String
  | [] => ""
  | [x] => x
  | x :: xs => x ++ "\n" ++ joinNL xs

/-- The second half of `write_to_or_update_csv`: collect the first column
of every line (panicking, i.e. `none`, on a line without a comma), assert
the program names are distinct, drop the rows of the given (quoted)
program, rewrite the remainder and append the program's fresh row. -/
def upsert_body (s : ScoreStats) (q : String) (lines : List String) : Option String :=
  (lines.mapM firstField).bind fun progs =>
    if progs.Nodup then
      some (joinNL (lines.filter fun l => ! isPrefixL (q ++ ",").toList l.toList) ++
        "\n" ++ q ++ "," ++ s.to_csv ++ "\n")
    else none

/-- `ScoreStats::write_to_or_update_csv`, as a transformer of the file's
contents (the advisory lock serializes writers; a single invocation sees
and produces one contents value).  `none` models a panic: the empty
program name assert, a line without a comma (`split_once(..).unwrap()`), or
the duplicate-program assert. -/
def write_to_or_update_csv (s : ScoreStats) (program_name : String) (contents : String) :
    Option String :=
  if program_name = "" then none
  else
    let header := "Program," ++ s.csv_headings
    let c1 := if strContains contents header then contents else ""
    let c2 := if c1 = "" then header ++ "\n" else c1
    upsert_body s (debugQuote program_name) (rustLines c2)

/-- `n` successive invocations of the CSV upsert with the same stats and
program name, starting from the given file contents. -/
def upsertN (s : ScoreStats) (name : String) : Nat → String → Option String
  | 0, c => some c
  | n + 1, c => (write_to_or_update_csv s name c).bind (upsertN s name n)

/-- A character that cannot disturb the line structure of the CSV. -/
def cleanChar (c : Char) : Prop := c ≠ '\n' ∧ c ≠ '\r'

instance (c : Char) : Decidable (cleanChar c) := by unfold cleanChar; infer_instance


/-- All characters of the list are clean. -/
def cleanL (l : List Char) : Prop := ∀ c ∈ l, cleanChar c

/-- All characters of the string are clean. -/
def cleanS (s : String) : Prop := cleanL s.toList

instance (l : List Char) : Decidable (cleanL l) := by
  unfold cleanL
  exact List.decidableBAll _ l

instance (s : String) : Decidable (cleanS s) := by unfold cleanS; infer_instance

theorem toList_append (a b : String) : (a ++ b).toList = a.toList ++ b.toList := rfl

theorem cleanS_append {a b : String} (ha : cleanS a) (hb : cleanS b) : cleanS (a ++ b) := by
  intro c hc
  rw [toList_append] at hc
  rcases List.mem_append.mp hc with h | h
  · exact ha c h
  · exact hb c h

theorem digitChar_clean (d : Nat) : cleanChar (digitChar d) := by
  unfold digitChar
  split <;> decide

theorem natDigsAux_clean : ∀ fuel n, cleanL (natDigsAux fuel n)
  | 0, n => by intro c hc; simp [natDigsAux] at hc
  | fuel + 1, n => by
    intro c hc
    rw [natDigsAux] at hc
    split at hc
    · simp at hc
      exact hc ▸ digitChar_clean n
    · rcases List.mem_append.mp hc with h | h
      · exact natDigsAux_clean fuel (n / 10) c h
      · simp at h
        exact h ▸ digitChar_clean (n % 10)

theorem natStr_clean (n : Nat) : cleanS (natStr n) := natDigsAux_clean (n + 1) n

theorem F64_fmt_clean (v : F64) : cleanS v.fmt := by
  rcases v with q | _ | b
  · rw [F64.fmt]
    refine cleanS_append (cleanS_append ?_ (natStr_clean _)) ?_
    · split <;> decide
    · split
      · decide
      · exact cleanS_append (by decide) (natStr_clean _)
  · decide
  · cases b <;> decide

theorem Property_fmt_clean (p : Property) : cleanS p.fmt := by cases p <;> decide

theorem Condition_fmt_clean (c : Condition) : cleanS c.fmt := by cases c <;> decide

theorem foldl_clean {β : Type} (f : String → β → String)
    (hstep : ∀ acc b, cleanS acc → cleanS (f acc b)) :
    ∀ (l : List β) (acc : String), cleanS acc → cleanS (l.foldl f acc)
  | [], acc, h => h
  | b :: l, acc, h => by
    rw [List.foldl_cons]
    exact foldl_clean f hstep l (f acc b) (hstep acc b h)

theorem csv_headings_clean (s : ScoreStats) : cleanS s.csv_headings := by
  rw [ScoreStats.csv_headings]
  refine foldl_clean _ ?_ s.columns "AvgScore,NumVars" (by decide)
  intro acc pc hacc
  exact cleanS_append
    (cleanS_append (cleanS_append (cleanS_append hacc (by decide)) (Property_fmt_clean _))
      (by decide))
    (Condition_fmt_clean _)

theorem to_csv_clean (s : ScoreStats) : cleanS s.to_csv := by
  rw [ScoreStats.to_csv]
  refine foldl_clean _ ?_ s.columns _
    (cleanS_append (cleanS_append (F64_fmt_clean _) (by decide)) (natStr_clean _))
  intro acc pc hacc
  exact cleanS_append (cleanS_append hacc (by decide)) (natStr_clean _)

theorem escChar_clean (c : Char) : ∀ x ∈ escChar c, cleanChar x := by
  intro x hx
  rw [escChar] at hx
  split at hx
  · rcases List.mem_cons.mp hx with rfl | hx2
    · decide
    · simp at hx2; simp [hx2]; decide
  · split at hx
    · rcases List.mem_cons.mp hx with rfl | hx2
      · decide
      · simp at hx2; simp [hx2]; decide
    · split at hx
      · rcases List.mem_cons.mp hx with rfl | hx2
        · decide
        · simp at hx2; simp [hx2]; decide
      · split at hx
        · rcases List.mem_cons.mp hx with rfl | hx2
          · decide
          · simp at hx2; simp [hx2]; decide
        · split at hx
          · rcases List.mem_cons.mp hx with rfl | hx2
            · decide
            · simp at hx2; simp [hx2]; decide
          · rename_i h1 h2 h3 h4 h5
            simp at hx
            subst hx
            exact ⟨h3, h4⟩

theorem debugQuote_clean (name : String) : cleanS (debugQuote name) := by
  rw [debugQuote]
  refine cleanS_append (cleanS_append (by decide) ?_) (by decide)
  intro c hc
  simp only [String.toList] at hc
  obtain ⟨x, -, hx⟩ := List.mem_flatMap.mp hc
  exact escChar_clean x c hx

theorem debugQuote_head (name : String) :
    (debugQuote name).toList = '"' :: (name.toList.flatMap escChar ++ ['"']) := rfl

theorem splitOnNL_ne_nil : ∀ l, splitOnNL l ≠ []
  | [] => by simp [splitOnNL]
  | c :: t => by
    rw [splitOnNL]
    match h : splitOnNL t with
    | [] => exact absurd h (splitOnNL_ne_nil t)
    | s :: rest => by_cases hc : c = '\n' <;> simp [hc]

theorem splitOnNL_append_nl :
    ∀ (a r : List Char), (∀ c ∈ a, c ≠ '\n') → splitOnNL (a ++ '\n' :: r) = a :: splitOnNL r
  | [], r, _ => by
    rw [List.nil_append, splitOnNL]
    match h : splitOnNL r with
    | [] => exact absurd h (splitOnNL_ne_nil r)
    | s :: rest => simp
  | c :: a, r, hcl => by
    have hc : c ≠ '\n' := hcl c (by simp)
    have ih := splitOnNL_append_nl a r (fun x hx => hcl x (by simp [hx]))
    rw [List.cons_append, splitOnNL]
    match h : splitOnNL (a ++ '\n' :: r) with
    | [] => exact absurd h (splitOnNL_ne_nil _)
    | s :: rest =>
      rw [h] at ih
      have hs : s = a := by cases ih; rfl
      have hrest : rest = splitOnNL r := by cases ih; rfl
      subst hs hrest
      simp [hc]

theorem stripCR_clean {a : List Char} (ha : cleanL a) : stripCR a = a := by
  rw [stripCR]
  split
  · rename_i h
    have hmem : '\r' ∈ a.getLast? := Option.mem_def.mpr h
    obtain ⟨hne, heq⟩ := List.mem_getLast?_eq_getLast hmem
    have : '\r' ∈ a := heq ▸ List.getLast_mem hne
    exact absurd rfl (ha '\r' this).2
  · rfl

/-- Peeling one clean line (plus newline) off the front of a file. -/
theorem rustLines_cons (a rest : String) (ha : cleanS a) :
    rustLines (a ++ "\n" ++ rest) = a :: rustLines rest := by
  have hdata : (a ++ "\n" ++ rest).toList = a.toList ++ '\n' :: rest.toList := by
    rw [toList_append, toList_append]
    simp [List.append_assoc]
  have hnl : ∀ c ∈ a.toList, c ≠ '\n' := fun c hc => (ha c hc).1
  rw [rustLines, hdata, splitOnNL_append_nl a.toList rest.toList hnl]
  have hne : splitOnNL rest.toList ≠ [] := splitOnNL_ne_nil _
  match hsp : splitOnNL rest.toList with
  | [] => exact absurd hsp hne
  | s :: tail =>
    simp only [List.getLast?_cons_cons]
    rw [rustLines, hsp]
    have hstrip : (⟨stripCR a.toList⟩ : String) = a := by
      rw [stripCR_clean (by exact fun c hc => ha c hc)]
      rfl
    by_cases hlast : (s :: tail).getLast? = some []
    · rw [if_pos hlast, if_pos hlast]
      simp only [List.dropLast_cons_of_ne_nil (by simp : s :: tail ≠ [])]
      rw [List.map_cons, hstrip]
    · rw [if_neg hlast, if_neg hlast]
      rw [List.map_cons, hstrip]

theorem rustLines_single (a : String) (ha : cleanS a) : rustLines (a ++ "\n") = [a] := by
  have hdata : (a ++ "\n").toList = a.toList ++ '\n' :: [] := rfl
  have hnl : ∀ c ∈ a.toList, c ≠ '\n' := fun c hc => (ha c hc).1
  rw [rustLines, hdata, splitOnNL_append_nl a.toList [] hnl]
  show (if ([a.toList, []] : List (List Char)).getLast? = some [] then
      ([a.toList, []] : List (List Char)).dropLast else [a.toList, []]).map
        (fun l => (⟨stripCR l⟩ : String)) = [a]
  rw [if_pos (by rfl)]
  show ([a.toList] : List (List Char)).map (fun l => (⟨stripCR l⟩ : String)) = [a]
  rw [List.map_cons, stripCR_clean (by exact fun c hc => ha c hc)]
  rfl

theorem isPrefixL_append_self : ∀ (n r : List Char), isPrefixL n (n ++ r) = true
  | [], _ => rfl
  | c :: n, r => by
    rw [List.cons_append, isPrefixL]
    simp [isPrefixL_append_self n r]

theorem containsL_of_isPrefixL {n h : List Char} (hp : isPrefixL n h = true) :
    containsL n h = true := by
  cases h with
  | nil =>
    cases n with
    | nil => rfl
    | cons c t => simp [isPrefixL] at hp
  | cons c t =>
    rw [containsL]
    simp [hp]

theorem takeWhile_comma_append {a : List Char} (ha : ∀ c ∈ a, c ≠ ',') (b : List Char) :
    (a ++ ',' :: b).takeWhile (· ≠ ',') = a := by
  induction a with
  | nil =>
    rw [List.nil_append, List.takeWhile_cons, if_neg (by simp)]
  | cons c t ih =>
    have hc : c ≠ ',' := ha c (by simp)
    rw [List.cons_append, List.takeWhile_cons, if_pos (by simp [hc]),
      ih fun x hx => ha x (by simp [hx])]

theorem firstField_of_split {a : List Char} (ha : ∀ c ∈ a, c ≠ ',') (b : List Char) :
    firstField ⟨a ++ ',' :: b⟩ = some ⟨a⟩ := by
  have htl : (⟨a ++ ',' :: b⟩ : String).toList = a ++ ',' :: b := rfl
  rw [firstField, htl]
  rw [if_pos (by simp : ',' ∈ a ++ ',' :: b)]
  rw [takeWhile_comma_append ha b]

theorem strExt {a b : String} (h : a.toList = b.toList) : a = b := by
  cases a with
  | mk da =>
    cases b with
    | mk db => exact congrArg String.mk h

theorem strAppend_assoc (a b c : String) : a ++ b ++ c = a ++ (b ++ c) :=
  strExt (by simp [toList_append])

theorem str_ne_of_head {a b : String} {x y : Char} {ra rb : List Char}
    (hx : a.toList = x :: ra) (hy : b.toList = y :: rb) (hne : x ≠ y) : a ≠ b := by
  intro h
  rw [h, hy] at hx
  injection hx with h1 h2
  exact hne h1.symm

theorem ne_empty_of_ne_nil {a : String} (h : a.toList ≠ []) : a ≠ "" := fun he =>
  h (by rw [he]; rfl)

theorem ne_empty_of_toList_cons {a : String} {x : Char} {r : List Char}
    (hx : a.toList = x :: r) : a ≠ "" := by
  intro h
  rw [h] at hx
  cases hx

theorem isPrefixL_cons_ne {x y : Char} (h : x ≠ y) (as bs : List Char) :
    isPrefixL (x :: as) (y :: bs) = false := by
  simp [isPrefixL, h]

/-- The header's character list starts with `P`. -/
theorem header_toList (s : ScoreStats) :
    ("Program," ++ s.csv_headings).toList =
      'P' :: ("rogram,".toList ++ s.csv_headings.toList) := by
  rw [toList_append]
  rfl

theorem header_clean (s : ScoreStats) : cleanS ("Program," ++ s.csv_headings) :=
  cleanS_append (by decide) (csv_headings_clean s)

/-- The first field of the header line is `Program`. -/
theorem firstField_header (s : ScoreStats) :
    firstField ("Program," ++ s.csv_headings) = some "Program" := by
  have hx : ("Program," ++ s.csv_headings).toList =
      "Program".toList ++ ',' :: s.csv_headings.toList := by
    rw [toList_append]
    rfl
  rw [firstField, hx, if_pos (by simp : ',' ∈ "Program".toList ++ ',' :: s.csv_headings.toList)]
  rw [takeWhile_comma_append (by decide) _]
  rfl

/-- A quoted name (plus comma) is never a prefix of the header line. -/
theorem header_not_quoted (s : ScoreStats) (name : String) :
    isPrefixL (debugQuote name ++ ",").toList ("Program," ++ s.csv_headings).toList = false := by
  have hq : (debugQuote name ++ ",").toList =
      '"' :: ((name.toList.flatMap escChar ++ ['"']) ++ ",".toList) := by
    rw [toList_append, debugQuote_head]
    rfl
  rw [hq, header_toList]
  exact isPrefixL_cons_ne (by decide) _ _

/-- The first field of a row that starts with a quote also starts with a
quote. -/
theorem firstField_quoted {x : String} {rest0 : List Char} (hx : x.toList = '"' :: rest0)
    (hc : ',' ∈ x.toList) :
    firstField x = some ⟨'"' :: rest0.takeWhile (· ≠ ',')⟩ := by
  rw [firstField, if_pos hc, hx]
  simp [List.takeWhile_cons]

theorem mapM_ff_nil : ([] : List String).mapM firstField = some [] := rfl

theorem mapM_ff_cons {a fa : String} {rest frest : List String}
    (ha : firstField a = some fa) (hrest : rest.mapM firstField = some frest) :
    (a :: rest).mapM firstField = some (fa :: frest) := by
  rw [List.mapM_cons, ha, hrest]
  rfl

/-- The output row of `write_to_or_update_csv` for a fresh program. -/
def freshCSV (s : ScoreStats) (name : String) : String :=
  ("Program," ++ s.csv_headings) ++ "\n" ++ debugQuote name ++ "," ++ s.to_csv ++ "\n"

/-- From an empty (or absent) file, the upsert writes the header followed
by the program's row. -/
theorem upsert_empty (s : ScoreStats) (name : String) (hname : name ≠ "") :
    write_to_or_update_csv s name "" = some (freshCSV s name) := by
  have hcontains : strContains "" ("Program," ++ s.csv_headings) = false := by
    show ("Program," ++ s.csv_headings).toList.isEmpty = false
    rw [header_toList]
    rfl
  have hlines : rustLines (("Program," ++ s.csv_headings) ++ "\n") =
      [("Program," ++ s.csv_headings)] := rustLines_single _ (header_clean s)
  have hmapM : [("Program," ++ s.csv_headings)].mapM firstField = some ["Program"] :=
    mapM_ff_cons (firstField_header s) mapM_ff_nil
  have hb : (! isPrefixL (debugQuote name ++ ",").toList
      ("Program," ++ s.csv_headings).toList) = true := by
    rw [header_not_quoted s name]
    rfl
  have hfilter : ([("Program," ++ s.csv_headings)].filter fun l =>
      ! isPrefixL (debugQuote name ++ ",").toList l.toList) =
      [("Program," ++ s.csv_headings)] := by
    simp only [List.filter_cons, List.filter_nil, hb]
    rfl
  rw [write_to_or_update_csv, if_neg hname]
  simp only []
  rw [hcontains]
  norm_num
  rw [hlines, upsert_body, hmapM]
  simp only [Option.some_bind]
  rw [if_pos (by simp : (["Program"] : List String).Nodup), hfilter]
  rw [freshCSV]
  simp only [joinNL]

/-- Running the upsert on its own fresh output reproduces it exactly. -/
theorem upsert_fix (s : ScoreStats) (name : String) (hname : name ≠ "") :
    write_to_or_update_csv s name (freshCSV s name) = some (freshCSV s name) := by
  have hshape : freshCSV s name =
      ("Program," ++ s.csv_headings) ++ "\n" ++
        ((debugQuote name ++ "," ++ s.to_csv) ++ "\n") := by
    rw [freshCSV]
    exact strExt (by simp [toList_append, List.append_assoc])
  have hrow_toList : (debugQuote name ++ "," ++ s.to_csv).toList =
      '"' :: ((name.toList.flatMap escChar ++ ['"']) ++ (',' :: s.to_csv.toList)) := by
    rw [toList_append, toList_append, debugQuote_head]
    simp [List.append_assoc]
  have hrow_clean : cleanS (debugQuote name ++ "," ++ s.to_csv) :=
    cleanS_append (cleanS_append (debugQuote_clean name) (by decide)) (to_csv_clean s)
  have hcomma : ',' ∈ (debugQuote name ++ "," ++ s.to_csv).toList := by
    rw [hrow_toList]
    simp
  have hcontains : strContains (freshCSV s name) ("Program," ++ s.csv_headings) = true := by
    rw [strContains, hshape]
    have h2 : (("Program," ++ s.csv_headings) ++ "\n" ++
        ((debugQuote name ++ "," ++ s.to_csv) ++ "\n")).toList =
        ("Program," ++ s.csv_headings).toList ++
          ("\n" ++ ((debugQuote name ++ "," ++ s.to_csv) ++ "\n")).toList := by
      rw [← toList_append, strAppend_assoc]
    rw [h2]
    exact containsL_of_isPrefixL (isPrefixL_append_self _ _)
  have hne : freshCSV s name ≠ "" := by
    apply ne_empty_of_ne_nil
    rw [freshCSV, toList_append]
    simp
  have hlines : rustLines (freshCSV s name) =
      [("Program," ++ s.csv_headings), (debugQuote name ++ "," ++ s.to_csv)] := by
    rw [hshape, rustLines_cons _ _ (header_clean s), rustLines_single _ hrow_clean]
  have hff := firstField_quoted (x := debugQuote name ++ "," ++ s.to_csv) hrow_toList hcomma
  have hmapM : [("Program," ++ s.csv_headings),
      (debugQuote name ++ "," ++ s.to_csv)].mapM firstField =
      some ["Program",
        ⟨'"' :: ((name.toList.flatMap escChar ++ ['"']) ++
          (',' :: s.to_csv.toList)).takeWhile (· ≠ ',')⟩] :=
    mapM_ff_cons (firstField_header s) (mapM_ff_cons hff mapM_ff_nil)
  have hnodup : (["Program",
      ⟨'"' :: ((name.toList.flatMap escChar ++ ['"']) ++
        (',' :: s.to_csv.toList)).takeWhile (· ≠ ',')⟩] : List String).Nodup := by
    refine List.nodup_cons.mpr ⟨?_, List.nodup_singleton _⟩
    intro hmem
    rw [List.mem_singleton] at hmem
    exact str_ne_of_head (x := 'P') (y := '"') rfl rfl (by decide) hmem
  have hpref : isPrefixL (debugQuote name ++ ",").toList
      (debugQuote name ++ "," ++ s.to_csv).toList = true := by
    have h3 : (debugQuote name ++ "," ++ s.to_csv).toList =
        (debugQuote name ++ ",").toList ++ s.to_csv.toList := by
      rw [← toList_append]
    rw [h3]
    exact isPrefixL_append_self _ _
  have hbh : (! isPrefixL (debugQuote name ++ ",").toList
      ("Program," ++ s.csv_headings).toList) = true := by
    rw [header_not_quoted s name]
    rfl
  have hbr : (! isPrefixL (debugQuote name ++ ",").toList
      (debugQuote name ++ "," ++ s.to_csv).toList) = false := by
    rw [hpref]
    rfl
  have hfilter : ([("Program," ++ s.csv_headings),
      (debugQuote name ++ "," ++ s.to_csv)].filter fun l =>
      ! isPrefixL (debugQuote name ++ ",").toList l.toList) =
      [("Program," ++ s.csv_headings)] := by
    simp only [List.filter_cons, List.filter_nil, hbh, hbr]
    rfl
  rw [write_to_or_update_csv, if_neg hname]
  simp only []
  rw [hcontains]
  norm_num
  rw [if_neg hne]
  rw [hlines, upsert_body, hmapM]
  simp only [Option.some_bind]
  rw [if_pos hnodup, hfilter]
  rw [freshCSV]
  rfl

theorem upsertN_fix (s : ScoreStats) (name : String) (hname : name ≠ "") :
    ∀ m, upsertN s name m (freshCSV s name) = some (freshCSV s name)
  | 0 => rfl
  | m + 1 => by
    rw [upsertN, upsert_fix s name hname]
    simp only [Option.some_bind]
    exact upsertN_fix s name hname m

/-- The initial contents that break raw idempotence: a single line whose
first column is the quoted program name but which contains the header text
as a substring. -/
def cexC6 : String := "\"x\"," ++ ("Program," ++ statsNew.csv_headings) ++ "\n"

set_option maxRecDepth 100000 in
/-- C6 counterexample: starting from the crafted pre-existing file
`cexC6`, the first invocation removes the only line (its first column is
the quoted name) and so loses the header; the second invocation therefore
truncates and rewrites, producing a different file.  The upsert is not
idempotent over arbitrary pre-existing contents. -/
theorem c6_counterexample :
    upsertN statsNew "x" 2 cexC6 ≠ upsertN statsNew "x" 1 cexC6 := by decide

/-- C6 (amended): starting from an empty (or absent) file — the situation
the writer itself ever creates — invoking `write_to_or_update_csv` `n ≥ 1`
times in a row with the same `ScoreStats` and the same non-empty program
name produces a file with exactly the same contents as invoking it once
(the counterexample forces restricting the initial contents: for an
adversarial pre-existing file the second invocation can differ from the
first). -/
theorem c6_upsert_idempotent_from_empty (s : ScoreStats) (name : String)
    (hname : name ≠ "") (n : Nat) (hn : 1 ≤ n) :
    upsertN s name n "" = upsertN s name 1 "" := by
  obtain ⟨m, rfl⟩ : ∃ m, n = m + 1 := ⟨n - 1, by omega⟩
  rw [upsertN, upsert_empty s name hname]
  simp only [Option.some_bind]
  rw [upsertN_fix s name hname m]
  rw [upsertN, upsert_empty s name hname]
  rfl

/-- Witness for C6 (amended): two runs from empty match one run, for the
fresh stats and the program name `x`. -/
theorem c6_witness : upsertN statsNew "x" 2 "" = upsertN statsNew "x" 1 "" :=
  c6_upsert_idempotent_from_empty statsNew "x" (by decide) 2 (by omega)

/-! ### The content-addressed cache (`utils/runner/src/cache.rs`)

Paths are modelled as normalized component lists (so `./.runner-cache`
contributes the single component `.runner-cache`, matching the glob
results that `skip(4)` is calibrated against), and the file system as a
partial map from paths to entries. -/

/-- Contents of a file: raw bytes, or the `job-run-time` payload.  The
textual serialization of the run time (`f64` seconds printed with Rust's
round-trip `Display` and parsed back with `parse::<f64>`) is modelled as
storing the rational value itself; `none` is the
`!!! NO TIME KNOWN !!!` sentinel. -/
inductive FileData where
  | bytes (b : List Nat)
  | timeData (t : Option Rat)
deriving DecidableEq

/-- A file-system entry. -/
inductive FsEntry where
  | dir
  | file (d : FileData)
deriving DecidableEq

/-- The file system: a partial map from paths to entries. -/
def FS : Type := List String → Option FsEntry

/-- Write (create or overwrite) one entry. -/
def fsWrite (fs : FS) (p : List String) (e : FsEntry) : FS :=
  fun q => if q = p then some e else fs q

/-- The nonempty prefixes of a path, shortest first (including the path
itself). -/
def prefixesOf (p : List String) : List (List String) :=
  (List.range p.length).map fun i => p.take (i + 1)

/-- `std::fs::create_dir_all`: create every missing ancestor (existing
entries are left untouched). -/
def create_dir_all (fs : FS) (p : List String) : FS :=
  (prefixesOf p).foldl (fun f pre => if (f pre).isSome then f else fsWrite f pre .dir) fs

/-- `cache.rs` `enum CacheEntry`. -/
inductive CacheEntry where
  | Dir
  | File (p : List String)
deriving DecidableEq

/-- `cache.rs` `struct Cache`. -/
structure Cache where
  path : List String

/-- `Cache::new`: `./.runner-cache/<JobType>` (the job-type name is a
single component; the `assert!(!.contains("/"))` holds for the derived
display names). -/
def Cache.new (job_typ : String) : Cache := ⟨[".runner-cache", job_typ]⟩

/-- `Cache::JOB_RUN_TIME`. -/
def JOB_RUN_TIME : String := "job-run-time"

/-- Bytes fed to the hasher for a path (`as_os_str().as_bytes()`,
components joined by `/`). -/
def pathBytes (p : List String) : List Nat :=
  p.flatMap fun comp => comp.toList.map Char.toNat ++ [47]

/-- Bytes of a file's contents as fed to the hasher. -/
def fileBytes : FileData → List Nat
  | .bytes b => b
  | .timeData none => [0]
  | .timeData (some q) => [1, q.num.natAbs, q.den]

/-- Modelled from the spec: the blake3 hash (external crate) of a byte
stream, as a hex string used for one path component.  Only determinism
matters for the claims, so an injective-enough serialization stands in for
the hash. -/
def blake3Hex (data : List Nat) : String := ⟨data.flatMap fun b => (natStr b).toList ++ [',']⟩

/-- Lexicographic comparison of paths (for the `sort()` before hashing). -/
def listLeb : List String → List String → Bool
  | [], _ => true
  | _ :: _, [] => false
  | a :: as, b :: bs => if a = b then listLeb as bs else decide (a < b)

/-- Insert into a sorted list. -/
def insertSorted (x : List String) : List (List String) → List (List String)
  | [] => [x]
  | y :: ys => if listLeb x y then x :: y :: ys else y :: insertSorted x ys

/-- Sort paths before hashing (`Vec::sort`, modelled by insertion sort:
only the determinism of the sorted order matters here). -/
def sortPaths (l : List (List String)) : List (List String) := l.foldr insertSorted []

/-- The literal `data:` separator fed between the path list and the
contents. -/
def dataSep : List Nat := [100, 97, 116, 97, 58]

/-- The hash contribution of one dependency's contents; `none` models the
panics (glob expanded to nothing because the path is missing, or
`File::open`/`read_to_end` failing on a directory).  Dependency globs are
modelled as literal paths (the glob crate is external). -/
def depContent (fs : FS) (d : List String) : Option (List Nat) :=
  match fs d with
  | some (.file fd) => some (fileBytes fd)
  | _ => none

/-- `Cache::get_dep_hash`. -/
def get_dep_hash (fs : FS) (dependencies : List (List String)) : Option String :=
  let deps := sortPaths dependencies
  if deps.all fun d => (depContent fs d).isSome then
    some (blake3Hex (deps.flatMap pathBytes ++ dataSep ++
      deps.flatMap fun d => pathBytes d ++ (depContent fs d).getD []))
  else none

/-- The hash contribution of one input's contents: `dir` for directories,
the bytes for files, panic (`none`) when missing. -/
def inpContent (fs : FS) (i : List String) : Option (List Nat) :=
  match fs i with
  | some (.file fd) => some (fileBytes fd)
  | some .dir => some [100, 105, 114]
  | none => none

/-- `Cache::get_inp_hash`. -/
def get_inp_hash (fs : FS) (inputs : List (List String)) : Option String :=
  let inps := sortPaths inputs
  if inps.all fun i => (inpContent fs i).isSome then
    some (blake3Hex (inps.flatMap pathBytes ++ dataSep ++
      inps.flatMap fun i => pathBytes i ++ (inpContent fs i).getD []))
  else none

/-- `Cache::dir_for`. -/
def Cache.dir_for (c : Cache) (fs : FS) (inputs dependencies : List (List String)) :
    Option (List String) :=
  (get_dep_hash fs dependencies).bind fun dh =>
    (get_inp_hash fs inputs).map fun ih => c.path ++ [dh, ih]

/-- The per-entry translation of `Cache::get`'s directory walk: a
cache-relative path maps to `Dir` for directories and to a `File` entry
holding the absolute cache path for files. -/
def cacheLookup (fs : FS) (dir : List String) (rel : List String) : Option CacheEntry :=
  if rel = [] then none
  else
    match fs (dir ++ rel) with
    | some .dir => some .Dir
    | some (.file _) => some (.File (dir ++ rel))
    | none => none

/-- `Cache::get`: the mapping from cache-relative paths to entries
(`HashMap<PathBuf, CacheEntry>`), as a partial map; the outer `none`
models a panic inside the hashing. -/
def Cache.get (c : Cache) (fs : FS) (inputs dependencies : List (List String)) :
    Option (List String → Option CacheEntry) :=
  (c.dir_for fs inputs dependencies).map fun dir =>
    if (fs dir).isSome then
      if (fs (dir ++ [JOB_RUN_TIME])).isSome then cacheLookup fs dir
      else fun _ => none
    else fun _ => none

/-- The per-output copying loop of `Cache::insert`: directories are
re-created, files are copied beneath the cache directory (creating the
parent), a missing output is an error. -/
def insertOutputs (dir : List String) : List (List String) → FS → Option FS
  | [], fs => some fs
  | o :: rest, fs =>
    match fs o with
    | some .dir =>
      let path := dir ++ o
      let fs2 := if (fs path).isSome then fs else create_dir_all fs path
      insertOutputs dir rest fs2
    | some (.file d) =>
      let path := dir ++ o
      let parent := path.dropLast
      let fs2 := if (fs parent).isSome then fs else create_dir_all fs parent
      insertOutputs dir rest (fsWrite fs2 path (.file d))
    | none => none

/-- `Cache::insert`: create the cache directory, write `job-run-time`,
copy each output beneath the cache directory. -/
def Cache.insert (c : Cache) (fs : FS) (inputs dependencies : List (List String))
    (outputs : List (List String)) (time_taken_for_job : Option Rat) : Option FS :=
  (c.dir_for fs inputs dependencies).bind fun dir =>
    let fs1 := if (fs dir).isSome then fs else create_dir_all fs dir
    let fs2 := fsWrite fs1 (dir ++ [JOB_RUN_TIME]) (.file (.timeData time_taken_for_job))
    insertOutputs dir outputs fs2

/-- The payload read performed by `Cache::get_runtime` on the entry found
under the `job-run-time` key. -/
def runtimeOfEntry (fs : FS) : Option CacheEntry → Option (Option Rat)
  | none => some none
  | some .Dir => some none
  | some (.File p) =>
    match fs p with
    | some (.file (.timeData t)) => some t
    | _ => none

/-- `Cache::get_runtime`: the outer `none` models the
`read_to_string`/`parse` panics; `some none` is "no time known" (key
missing, a directory, or the sentinel). -/
def Cache.get_runtime (fs : FS) (cached : List String → Option CacheEntry) :
    Option (Option Rat) :=
  runtimeOfEntry fs (cached [JOB_RUN_TIME])

/-- A small live file system for the cache counterexample: one input file,
one dependency file, and the nested output file `a/b`. -/
def fsC8 : FS := fun p =>
  if p = ["in.txt"] then some (.file (.bytes [1]))
  else if p = ["dep.rs"] then some (.file (.bytes [2]))
  else if p = ["a"] then some .dir
  else if p = ["a", "b"] then some (.file (.bytes [3]))
  else none

/-- The mapping obtained by `insert` followed by `get` on `fsC8` (empty if
either panicked; the counterexample below shows they did not). -/
def mC8 : List String → Option CacheEntry :=
  match Cache.insert (Cache.new "JT") fsC8 [["in.txt"]] [["dep.rs"]] [["a", "b"]] (some 1) with
  | some fs2 =>
    match Cache.get (Cache.new "JT") fs2 [["in.txt"]] [["dep.rs"]] with
    | some m => m
    | none => fun _ => none
  | none => fun _ => none

/-- C8 counterexample: after inserting the single nested output `a/b` and
reading the cache back, the mapping also contains the intermediate
directory `a`, which is neither an output's relative path nor the
`job-run-time` entry — the claimed "keys are exactly the outputs' relative
paths plus job-run-time" fails. -/
theorem c8_counterexample :
    (Cache.insert (Cache.new "JT") fsC8 [["in.txt"]] [["dep.rs"]] [["a", "b"]] (some 1)).isSome ∧
      (mC8 ["a"]).isSome ∧ (mC8 ["a", "b"]).isSome ∧
      ["a"] ∉ [["a", "b"]] ∧ ["a"] ≠ [JOB_RUN_TIME] := by decide

theorem mem_insertSorted (x y : List String) :
    ∀ l, y ∈ insertSorted x l ↔ y = x ∨ y ∈ l
  | [] => by simp [insertSorted]
  | z :: l => by
    rw [insertSorted]
    split
    · simp [List.mem_cons]
    · rw [List.mem_cons, mem_insertSorted x y l]
      simp [List.mem_cons]
      tauto

theorem mem_sortPaths (y : List String) : ∀ l, y ∈ sortPaths l ↔ y ∈ l := by
  intro l
  induction l with
  | nil => simp [sortPaths]
  | cons z l ih =>
    rw [sortPaths, List.foldr_cons, mem_insertSorted, List.mem_cons]
    rw [sortPaths] at ih
    rw [ih]

theorem all_congr_mem {α : Type} {l : List α} {f g : α → Bool} (h : ∀ x ∈ l, f x = g x) :
    l.all f = l.all g := by
  induction l with
  | nil => rfl
  | cons a l ih =>
    rw [List.all_cons, List.all_cons, h a (by simp), ih fun x hx => h x (by simp [hx])]

theorem flatMap_congr_mem {α β : Type} {l : List α} {f g : α → List β}
    (h : ∀ x ∈ l, f x = g x) : l.flatMap f = l.flatMap g := by
  induction l with
  | nil => rfl
  | cons a l ih =>
    rw [List.flatMap_cons, List.flatMap_cons, h a (by simp),
      ih fun x hx => h x (by simp [hx])]

/-- The dependency hash reads the file system only at the dependency
paths. -/
theorem get_dep_hash_congr {fs fs2 : FS} {deps : List (List String)}
    (h : ∀ d ∈ deps, fs2 d = fs d) : get_dep_hash fs2 deps = get_dep_hash fs deps := by
  have hc : ∀ d ∈ sortPaths deps, depContent fs2 d = depContent fs d := by
    intro d hd
    rw [depContent, depContent, h d ((mem_sortPaths d deps).mp hd)]
  rw [get_dep_hash, get_dep_hash]
  rw [all_congr_mem fun d hd => by rw [hc d hd]]
  rw [@flatMap_congr_mem (List String) Nat (sortPaths deps)
    (fun d => pathBytes d ++ (depContent fs2 d).getD [])
    (fun d => pathBytes d ++ (depContent fs d).getD [])
    (fun d hd =>
      show pathBytes d ++ (depContent fs2 d).getD [] =
        pathBytes d ++ (depContent fs d).getD [] by rw [hc d hd])]

/-- The input hash reads the file system only at the input paths. -/
theorem get_inp_hash_congr {fs fs2 : FS} {inputs : List (List String)}
    (h : ∀ i ∈ inputs, fs2 i = fs i) : get_inp_hash fs2 inputs = get_inp_hash fs inputs := by
  have hc : ∀ i ∈ sortPaths inputs, inpContent fs2 i = inpContent fs i := by
    intro i hi
    rw [inpContent, inpContent, h i ((mem_sortPaths i inputs).mp hi)]
  rw [get_inp_hash, get_inp_hash]
  rw [all_congr_mem fun i hi => by rw [hc i hi]]
  rw [@flatMap_congr_mem (List String) Nat (sortPaths inputs)
    (fun i => pathBytes i ++ (inpContent fs2 i).getD [])
    (fun i => pathBytes i ++ (inpContent fs i).getD [])
    (fun i hi =>
      show pathBytes i ++ (inpContent fs2 i).getD [] =
        pathBytes i ++ (inpContent fs i).getD [] by rw [hc i hi])]

theorem append_prefix_append_iff {α : Type} (a r x : List α) :
    a ++ r <+: a ++ x ↔ r <+: x := by
  constructor
  · rintro ⟨t, ht⟩
    rw [List.append_assoc] at ht
    exact ⟨t, List.append_cancel_left ht⟩
  · rintro ⟨t, rfl⟩
    exact ⟨t, by rw [List.append_assoc]⟩

theorem prefix_append_cases {α : Type} {q a b : List α} (h : q <+: a ++ b) :
    q <+: a ∨ ∃ r, q = a ++ r ∧ r <+: b := by
  by_cases hlen : q.length ≤ a.length
  · left
    exact (List.isPrefix_append_of_length hlen).mp h
  · right
    have hap : a <+: q := by
      refine List.prefix_of_prefix_length_le (a.prefix_append b) h (by omega)
    refine ⟨q.drop a.length, ?_, ?_⟩
    · rw [List.prefix_iff_eq_take] at hap
      conv_lhs => rw [← List.take_append_drop a.length q]
      rw [← hap]
    · have := h.drop a.length
      rwa [List.drop_left] at this

theorem mem_prefixesOf {q p : List String} : q ∈ prefixesOf p ↔ q ≠ [] ∧ q <+: p := by
  rw [prefixesOf]
  constructor
  · intro hq
    obtain ⟨i, hi, rfl⟩ := by simpa using hq
    constructor
    · have : (p.take (i + 1)).length = i + 1 := by
        rw [List.length_take]
        omega
      intro hnil
      rw [hnil] at this
      simp at this
    · exact List.take_prefix _ _
  · rintro ⟨hne, hpre⟩
    have hlen : q.length ≤ p.length := hpre.length_le
    have hlen2 : 1 ≤ q.length := by
      cases q with
      | nil => exact absurd rfl hne
      | cons x t => simp
    simp only [List.mem_map, List.mem_range]
    refine ⟨q.length - 1, by omega, ?_⟩
    rw [List.prefix_iff_eq_take] at hpre
    rw [show q.length - 1 + 1 = q.length by omega]
    exact hpre.symm

/-- The one-ancestor step of `create_dir_all`. -/
theorem cda_foldl_preserve (q : List String) :
    ∀ (l : List (List String)) (f : FS), (∀ x ∈ l, x ≠ q) →
      (l.foldl (fun f pre => if (f pre).isSome then f else fsWrite f pre .dir) f) q = f q
  | [], f, _ => rfl
  | x :: l, f, hx => by
    rw [List.foldl_cons]
    rw [cda_foldl_preserve q l _ fun y hy => hx y (List.mem_cons_of_mem x hy)]
    split
    · rfl
    · exact if_neg fun hc => hx x (List.mem_cons_self x l) hc.symm

/-- `create_dir_all` leaves paths outside the ancestor chain untouched. -/
theorem cda_preserve {fs : FS} {p q : List String} (hq : q ∉ prefixesOf p) :
    create_dir_all fs p q = fs q :=
  cda_foldl_preserve q (prefixesOf p) fs fun _ hxm hxq => hq (hxq ▸ hxm)

/-- Folding the ancestor-creation step never erases an existing entry. -/
theorem cda_foldl_keeps (q : List String) (e : FsEntry) :
    ∀ (l : List (List String)) (f : FS), f q = some e →
      (l.foldl (fun f pre => if (f pre).isSome then f else fsWrite f pre .dir) f) q = some e
  | [], f, h => h
  | x :: l, f, h => by
    rw [List.foldl_cons]
    refine cda_foldl_keeps q e l _ ?_
    split
    · exact h
    · rename_i hnone
      rw [fsWrite]
      split
      · rename_i hqx
        rw [← hqx, h] at hnone
        simp at hnone
      · exact h

theorem cda_keeps_some {fs : FS} {q : List String} {e : FsEntry} (h : fs q = some e)
    (p : List String) : create_dir_all fs p q = some e :=
  cda_foldl_keeps q e (prefixesOf p) fs h

theorem cda_foldl_mono (q : List String) :
    ∀ (l : List (List String)) (f : FS), (f q).isSome →
      ((l.foldl (fun f pre => if (f pre).isSome then f else fsWrite f pre .dir) f) q).isSome := by
  intro l f h
  match he : f q with
  | some e => rw [cda_foldl_keeps q e l f he]; rfl
  | none => rw [he] at h; simp at h

theorem cda_foldl_isSome_of_mem (q : List String) :
    ∀ (l : List (List String)) (f : FS), q ∈ l →
      ((l.foldl (fun f pre => if (f pre).isSome then f else fsWrite f pre .dir) f) q).isSome
  | [], f, h => absurd h (by simp)
  | x :: l, f, h => by
    rw [List.foldl_cons]
    rcases List.mem_cons.mp h with rfl | hmem
    · refine cda_foldl_mono q l _ ?_
      split
      · assumption
      · rw [fsWrite, if_pos rfl]
        rfl
    · exact cda_foldl_isSome_of_mem q l _ hmem

theorem cda_isSome_iff {fs : FS} {p q : List String} :
    (create_dir_all fs p q).isSome ↔ ((fs q).isSome ∨ q ∈ prefixesOf p) := by
  by_cases hmem : q ∈ prefixesOf p
  · simp only [hmem, or_true, iff_true]
    exact cda_foldl_isSome_of_mem q (prefixesOf p) fs hmem
  · rw [cda_preserve hmem]
    simp [hmem]

theorem not_prefixesOf_self_append {dir rel : List String} (h : rel ≠ []) :
    dir ++ rel ∉ prefixesOf dir := by
  intro hmem
  have hlen := (mem_prefixesOf.mp hmem).2.length_le
  rw [List.length_append] at hlen
  have : rel.length = 0 := by omega
  exact h (List.length_eq_zero.mp this)

theorem outside_not_in_prefixesOf_append {dir x q : List String}
    (h1 : q ∉ prefixesOf dir) (h2 : ¬ dir <+: q) : q ∉ prefixesOf (dir ++ x) := by
  intro hmem
  obtain ⟨hne, hpre⟩ := mem_prefixesOf.mp hmem
  rcases prefix_append_cases hpre with hc | ⟨r, rfl, hr⟩
  · exact h1 (mem_prefixesOf.mpr ⟨hne, hc⟩)
  · exact h2 ⟨r, rfl⟩

theorem append_mem_prefixesOf_append {dir x rel : List String} (hdir : dir ≠ []) :
    dir ++ rel ∈ prefixesOf (dir ++ x) ↔ rel <+: x := by
  rw [mem_prefixesOf, append_prefix_append_iff]
  simp only [and_iff_right_iff_imp]
  intro _
  intro hc
  rw [List.append_eq_nil] at hc
  exact hdir hc.1

theorem dropLast_append_right {α : Type} (a : List α) {b : List α} (hb : b ≠ []) :
    (a ++ b).dropLast = a ++ b.dropLast := by
  induction a with
  | nil => rfl
  | cons x a ih =>
    have hab : a ++ b ≠ [] := fun h => hb (List.append_eq_nil.mp h).2
    rw [List.cons_append, List.dropLast_cons_of_ne_nil hab, ih, List.cons_append]

theorem dropLast_prefix_self {α : Type} (l : List α) : l.dropLast <+: l := by
  rw [List.dropLast_eq_take]
  exact List.take_prefix _ l

theorem prefix_dropLast_of_proper {α : Type} {r o : List α} (h : r <+: o) (hne : r ≠ o) :
    r <+: o.dropLast := by
  obtain ⟨t, rfl⟩ := h
  have ht : t ≠ [] := by rintro rfl; simp at hne
  rw [dropLast_append_right r ht]
  exact ⟨t.dropLast, rfl⟩

/-- Invariant of the `insertOutputs` fold relative to the pristine file
system `fs`: outside the cache region nothing changed; beneath the cache
directory exactly the run-time sentinel, the directory itself, and the
nonempty prefixes of the processed outputs exist; processed file outputs
carry their original data; the run-time file holds the given time. -/
def InsertInv (fs : FS) (dir : List String) (time : Option Rat)
    (done : List (List String)) (g : FS) : Prop :=
  (∀ q, q ∉ prefixesOf dir → ¬ dir <+: q → g q = fs q) ∧
  (∀ rel, (g (dir ++ rel)).isSome ↔
    (rel = [] ∨ rel = [JOB_RUN_TIME] ∨ ∃ o ∈ done, rel ≠ [] ∧ rel <+: o)) ∧
  (∀ o ∈ done, ∀ d, fs o = some (.file d) → g (dir ++ o) = some (.file d)) ∧
  g (dir ++ [JOB_RUN_TIME]) = some (.file (.timeData time))

/-- Whatever exists beneath the cache directory (other than the sentinel)
sits on a prefix of an already-processed output. -/
theorem inv_subtree_closed {fs : FS} {dir : List String} {time : Option Rat}
    {done : List (List String)} {g : FS} (hInv : InsertInv fs dir time done g)
    {x : List String} (hxj : x ≠ [JOB_RUN_TIME])
    (hx : (g (dir ++ x)).isSome = true) :
    ∀ rel, rel ≠ [] → rel <+: x → ∃ o' ∈ done, rel <+: o' := by
  intro rel hne hpre
  rcases (hInv.2.1 x).mp hx with hx0 | hxjrt | ⟨o', ho', _, hpo⟩
  · subst hx0
    exact absurd (List.prefix_nil.mp hpre) hne
  · exact absurd hxjrt hxj
  · exact ⟨o', ho', hpre.trans hpo⟩

/-- One `insertOutputs` step on a directory output preserves the invariant. -/
theorem stepInv_dir {fs : FS} {dir : List String} {time : Option Rat}
    {done : List (List String)} {g : FS} (hInv : InsertInv fs dir time done g)
    (hdir : dir ≠ []) {o : List String} (hone : o ≠ [])
    (hjrt : ¬ ([JOB_RUN_TIME] <+: o))
    (hdisj : o ∉ prefixesOf dir ∧ ¬ dir <+: o)
    (hfso : fs o = some .dir) :
    InsertInv fs dir time (done ++ [o])
      (if (g (dir ++ o)).isSome then g else create_dir_all g (dir ++ o)) := by
  obtain ⟨h1, h2, h3, h4⟩ := hInv
  have hoj : o ≠ [JOB_RUN_TIME] := by
    rintro rfl
    exact hjrt (List.prefix_refl _)
  split
  · rename_i hsome
    have hclosed := inv_subtree_closed ⟨h1, h2, h3, h4⟩ hoj hsome
    refine ⟨h1, ?_, ?_, h4⟩
    · intro rel
      rw [h2 rel]
      constructor
      · rintro (h | h | ⟨o', ho', hne, hpre⟩)
        · exact Or.inl h
        · exact Or.inr (Or.inl h)
        · exact Or.inr (Or.inr ⟨o', List.mem_append_left _ ho', hne, hpre⟩)
      · rintro (h | h | ⟨o', ho', hne, hpre⟩)
        · exact Or.inl h
        · exact Or.inr (Or.inl h)
        · rcases List.mem_append.mp ho' with ho' | ho'
          · exact Or.inr (Or.inr ⟨o', ho', hne, hpre⟩)
          · have heq : o' = o := by simpa using ho'
            subst heq
            obtain ⟨o2, ho2, hp2⟩ := hclosed rel hne hpre
            exact Or.inr (Or.inr ⟨o2, ho2, hne, hp2⟩)
    · intro o' ho' d hd
      rcases List.mem_append.mp ho' with ho' | ho'
      · exact h3 o' ho' d hd
      · have heq : o' = o := by simpa using ho'
        subst heq
        rw [hfso] at hd
        simp at hd
  · refine ⟨?_, ?_, ?_, cda_keeps_some h4 _⟩
    · intro q hq1 hq2
      rw [cda_preserve (outside_not_in_prefixesOf_append hq1 hq2)]
      exact h1 q hq1 hq2
    · intro rel
      rw [cda_isSome_iff, h2 rel, append_mem_prefixesOf_append hdir]
      by_cases hrel : rel = []
      · subst hrel
        simp
      · constructor
        · rintro ((h | h | ⟨o', ho', hne, hpre⟩) | hpre)
          · exact Or.inl h
          · exact Or.inr (Or.inl h)
          · exact Or.inr (Or.inr ⟨o', List.mem_append_left _ ho', hne, hpre⟩)
          · exact Or.inr (Or.inr ⟨o, List.mem_append_right _ (by simp), hrel, hpre⟩)
        · rintro (h | h | ⟨o', ho', hne, hpre⟩)
          · exact Or.inl (Or.inl h)
          · exact Or.inl (Or.inr (Or.inl h))
          · rcases List.mem_append.mp ho' with ho' | ho'
            · exact Or.inl (Or.inr (Or.inr ⟨o', ho', hne, hpre⟩))
            · have heq : o' = o := by simpa using ho'
              exact Or.inr (heq ▸ hpre)
    · intro o' ho' d hd
      rcases List.mem_append.mp ho' with ho' | ho'
      · exact cda_keeps_some (h3 o' ho' d hd) _
      · have heq : o' = o := by simpa using ho'
        subst heq
        rw [hfso] at hd
        simp at hd

/-- One `insertOutputs` step on a file output preserves the invariant. -/
theorem stepInv_file {fs : FS} {dir : List String} {time : Option Rat}
    {done : List (List String)} {g : FS} (hInv : InsertInv fs dir time done g)
    (hdir : dir ≠ []) {o : List String} (hone : o ≠ [])
    (hjrt : ¬ ([JOB_RUN_TIME] <+: o))
    (hdisj : o ∉ prefixesOf dir ∧ ¬ dir <+: o)
    {d : FileData} (hfso : fs o = some (.file d)) :
    InsertInv fs dir time (done ++ [o])
      (fsWrite (if (g ((dir ++ o).dropLast)).isSome then g
        else create_dir_all g ((dir ++ o).dropLast)) (dir ++ o) (.file d)) := by
  obtain ⟨h1, h2, h3, h4⟩ := hInv
  rw [dropLast_append_right dir hone]
  have hg2some : ∀ rel, ((if (g (dir ++ o.dropLast)).isSome then g
      else create_dir_all g (dir ++ o.dropLast)) (dir ++ rel)).isSome ↔
      ((g (dir ++ rel)).isSome ∨ rel <+: o.dropLast) := by
    intro rel
    split
    · rename_i hsome
      rw [iff_comm, or_iff_left_iff_imp]
      intro hpre
      rw [h2]
      by_cases hrel : rel = []
      · exact Or.inl hrel
      · have hdlj : o.dropLast ≠ [JOB_RUN_TIME] := by
          intro h
          exact hjrt (h ▸ dropLast_prefix_self o)
        obtain ⟨o', ho', hp'⟩ :=
          inv_subtree_closed ⟨h1, h2, h3, h4⟩ hdlj hsome rel hrel hpre
        exact Or.inr (Or.inr ⟨o', ho', hrel, hp'⟩)
    · rw [cda_isSome_iff, append_mem_prefixesOf_append hdir]
  have hg2keeps : ∀ (q : List String) (e : FsEntry), g q = some e →
      (if (g (dir ++ o.dropLast)).isSome then g
        else create_dir_all g (dir ++ o.dropLast)) q = some e := by
    intro q e h
    split
    · exact h
    · exact cda_keeps_some h _
  refine ⟨?_, ?_, ?_, ?_⟩
  · intro q hq1 hq2
    have hqo : q ≠ dir ++ o := by rintro rfl; exact hq2 ⟨o, rfl⟩
    rw [fsWrite, if_neg hqo]
    split
    · exact h1 q hq1 hq2
    · rw [cda_preserve (outside_not_in_prefixesOf_append hq1 hq2)]
      exact h1 q hq1 hq2
  · intro rel
    by_cases hro : rel = o
    · subst hro
      rw [fsWrite, if_pos rfl]
      constructor
      · intro _
        exact Or.inr (Or.inr ⟨rel, List.mem_append_right _ (by simp), hone,
          List.prefix_refl rel⟩)
      · intro _
        rfl
    · rw [fsWrite, if_neg (fun h => hro (List.append_cancel_left h)), hg2some rel, h2 rel]
      constructor
      · rintro ((h | h | ⟨o', ho', hne, hpre⟩) | hpre)
        · exact Or.inl h
        · exact Or.inr (Or.inl h)
        · exact Or.inr (Or.inr ⟨o', List.mem_append_left _ ho', hne, hpre⟩)
        · by_cases hrel : rel = []
          · exact Or.inl hrel
          · exact Or.inr (Or.inr ⟨o, List.mem_append_right _ (by simp), hrel,
              hpre.trans (dropLast_prefix_self o)⟩)
      · rintro (h | h | ⟨o', ho', hne, hpre⟩)
        · exact Or.inl (Or.inl h)
        · exact Or.inl (Or.inr (Or.inl h))
        · rcases List.mem_append.mp ho' with ho' | ho'
          · exact Or.inl (Or.inr (Or.inr ⟨o', ho', hne, hpre⟩))
          · have heq : o' = o := by simpa using ho'
            subst heq
            exact Or.inr (prefix_dropLast_of_proper hpre hro)
  · intro o' ho' d' hd'
    rcases List.mem_append.mp ho' with ho' | ho'
    · by_cases heq : dir ++ o' = dir ++ o
      · have heq2 : o' = o := List.append_cancel_left heq
        subst heq2
        rw [hfso] at hd'
        have hdd : d = d' := by simpa using hd'
        rw [fsWrite, if_pos heq, hdd]
      · rw [fsWrite, if_neg heq]
        exact hg2keeps (dir ++ o') (.file d') (h3 o' ho' d' hd')
    · have heq : o' = o := by simpa using ho'
      subst heq
      rw [hfso] at hd'
      have hdd : d = d' := by simpa using hd'
      rw [fsWrite, if_pos rfl, hdd]
  · have hne2 : dir ++ [JOB_RUN_TIME] ≠ dir ++ o := by
      intro h
      exact hjrt ((List.append_cancel_left h) ▸ List.prefix_refl [JOB_RUN_TIME])
    rw [fsWrite, if_neg hne2]
    exact hg2keeps _ _ h4

/-- The `insertOutputs` fold succeeds and maintains the invariant when the
outputs are nonempty, exist, avoid the sentinel name, and lie outside the
cache region. -/
theorem insertOutputs_spec {fs : FS} {dir : List String} {time : Option Rat}
    (hdir : dir ≠ []) :
    ∀ (outs done : List (List String)) (g : FS),
      InsertInv fs dir time done g →
      (∀ o ∈ outs, o ≠ []) →
      (∀ o ∈ outs, (fs o).isSome) →
      (∀ o ∈ outs, ¬ ([JOB_RUN_TIME] <+: o)) →
      (∀ o ∈ outs, o ∉ prefixesOf dir ∧ ¬ dir <+: o) →
      ∃ g2, insertOutputs dir outs g = some g2 ∧
        InsertInv fs dir time (done ++ outs) g2
  | [], done, g, hInv, _, _, _, _ => ⟨g, rfl, by simpa using hInv⟩
  | o :: outs, done, g, hInv, hne, hex, hjrt, hdisj => by
    have hgo : g o = fs o := hInv.1 o (hdisj o (by simp)).1 (hdisj o (by simp)).2
    match he : fs o with
    | none =>
      have := hex o (by simp)
      rw [he] at this
      simp at this
    | some .dir =>
      obtain ⟨g2, hg2, hinv2⟩ := insertOutputs_spec hdir outs (done ++ [o]) _
        (stepInv_dir hInv hdir (hne o (by simp)) (hjrt o (by simp)) (hdisj o (by simp)) he)
        (fun x hx => hne x (by simp [hx]))
        (fun x hx => hex x (by simp [hx]))
        (fun x hx => hjrt x (by simp [hx]))
        (fun x hx => hdisj x (by simp [hx]))
      refine ⟨g2, ?_, by simpa using hinv2⟩
      rw [insertOutputs, hgo, he]
      exact hg2
    | some (.file d) =>
      obtain ⟨g2, hg2, hinv2⟩ := insertOutputs_spec hdir outs (done ++ [o]) _
        (stepInv_file hInv hdir (hne o (by simp)) (hjrt o (by simp)) (hdisj o (by simp)) he)
        (fun x hx => hne x (by simp [hx]))
        (fun x hx => hex x (by simp [hx]))
        (fun x hx => hjrt x (by simp [hx]))
        (fun x hx => hdisj x (by simp [hx]))
      refine ⟨g2, ?_, by simpa using hinv2⟩
      rw [insertOutputs, hgo, he]
      exact hg2

/-- After creating the cache directory and writing the run-time sentinel
in a fresh region, the invariant holds with no outputs processed yet. -/
theorem insertInit {fs : FS} {dir : List String} (hdir : dir ≠ [])
    (hfresh : ∀ rel, fs (dir ++ rel) = none) (time : Option Rat) :
    InsertInv fs dir time []
      (fsWrite (create_dir_all fs dir) (dir ++ [JOB_RUN_TIME])
        (.file (.timeData time))) := by
  refine ⟨?_, ?_, ?_, ?_⟩
  · intro q hq1 hq2
    have hqj : q ≠ dir ++ [JOB_RUN_TIME] := by rintro rfl; exact hq2 ⟨_, rfl⟩
    rw [fsWrite, if_neg hqj, cda_preserve hq1]
  · intro rel
    by_cases hrel : rel = [JOB_RUN_TIME]
    · subst hrel
      rw [fsWrite, if_pos rfl]
      simp
    · have hne2 : dir ++ rel ≠ dir ++ [JOB_RUN_TIME] :=
        fun h => hrel (List.append_cancel_left h)
      rw [fsWrite, if_neg hne2, cda_isSome_iff, hfresh rel]
      simp only [Option.isSome_none, Bool.false_eq_true, false_or]
      constructor
      · intro hmem
        have hlen := (mem_prefixesOf.mp hmem).2.length_le
        rw [List.length_append] at hlen
        exact Or.inl (List.length_eq_zero.mp (by omega))
      · rintro (h | h | ⟨o, ho, _⟩)
        · subst h
          rw [List.append_nil]
          exact mem_prefixesOf.mpr ⟨hdir, List.prefix_refl dir⟩
        · exact absurd h hrel
        · simp at ho
  · intro o ho
    simp at ho
  · rw [fsWrite, if_pos rfl]

theorem cacheLookup_isSome {fs : FS} {dir rel : List String} (h : rel ≠ []) :
    (cacheLookup fs dir rel).isSome = (fs (dir ++ rel)).isSome := by
  unfold cacheLookup
  rw [if_neg h]
  match fs (dir ++ rel) with
  | none => rfl
  | some .dir => rfl
  | some (.file _) => rfl

theorem cacheLookup_file {fs : FS} {dir rel : List String} (h : rel ≠ [])
    {d : FileData} (hf : fs (dir ++ rel) = some (.file d)) :
    cacheLookup fs dir rel = some (.File (dir ++ rel)) := by
  unfold cacheLookup
  rw [if_neg h, hf]

theorem get_runtime_of_file {fs : FS} {m : List String → Option CacheEntry}
    {p : List String} (hm : m [JOB_RUN_TIME] = some (.File p))
    {t : Option Rat} (hf : fs p = some (.file (.timeData t))) :
    Cache.get_runtime fs m = some t := by
  unfold Cache.get_runtime
  rw [hm]
  simp only [runtimeOfEntry]
  rw [hf]

/-- C8 (amended): cache round trip.  When the hashing succeeds, the cache
directory region is fresh, and the outputs are existing nonempty paths
that avoid the `job-run-time` name and lie outside the cache region (as do
the inputs and dependencies), `insert` followed by `get` yields a mapping
whose keys are exactly the `job-run-time` entry together with the
outputs' relative paths and their nonempty ancestor prefixes; each file
output is mapped to a `File` entry holding the cache copy of its original
bytes; and `get_runtime` returns exactly the inserted duration (or the
no-time-known sentinel when none was given). -/
theorem c8_cache_round_trip
    (c : Cache) (fs : FS) (inputs deps outputs : List (List String))
    (time : Option Rat) (dh ihash : String) (dir : List String)
    (hdep : get_dep_hash fs deps = some dh)
    (hinp : get_inp_hash fs inputs = some ihash)
    (hdirdef : dir = c.path ++ [dh, ihash])
    (hfresh : ∀ rel, fs (dir ++ rel) = none)
    (hone : ∀ o ∈ outputs, o ≠ [])
    (hex : ∀ o ∈ outputs, (fs o).isSome)
    (hjrt : ∀ o ∈ outputs, ¬ ([JOB_RUN_TIME] <+: o))
    (hodisj : ∀ o ∈ outputs, o ∉ prefixesOf dir ∧ ¬ dir <+: o)
    (hdeps : ∀ d ∈ deps, d ∉ prefixesOf dir ∧ ¬ dir <+: d)
    (hinps : ∀ i ∈ inputs, i ∉ prefixesOf dir ∧ ¬ dir <+: i) :
    ∃ fs2 m,
      c.insert fs inputs deps outputs time = some fs2 ∧
      c.get fs2 inputs deps = some m ∧
      (∀ rel, (m rel).isSome ↔
        (rel = [JOB_RUN_TIME] ∨ ∃ o ∈ outputs, rel ≠ [] ∧ rel <+: o)) ∧
      (∀ o ∈ outputs, ∀ d, fs o = some (.file d) →
        m o = some (.File (dir ++ o)) ∧ fs2 (dir ++ o) = some (.file d)) ∧
      Cache.get_runtime fs2 m = some time := by
  subst hdirdef
  have hdirne : c.path ++ [dh, ihash] ≠ [] := by simp
  have hfsdir : fs (c.path ++ [dh, ihash]) = none := by
    have h := hfresh []
    rwa [List.append_nil] at h
  obtain ⟨g2, hg2, hinv⟩ := insertOutputs_spec hdirne outputs [] _
    (insertInit hdirne hfresh time) hone hex hjrt hodisj
  rw [List.nil_append] at hinv
  obtain ⟨i1, i2, i3, i4⟩ := hinv
  have hdirfor : c.dir_for fs inputs deps = some (c.path ++ [dh, ihash]) := by
    unfold Cache.dir_for
    rw [hdep, hinp]
    rfl
  have hinsert : c.insert fs inputs deps outputs time = some g2 := by
    unfold Cache.insert
    rw [hdirfor]
    show insertOutputs (c.path ++ [dh, ihash]) outputs
        (fsWrite (if (fs (c.path ++ [dh, ihash])).isSome then fs
          else create_dir_all fs (c.path ++ [dh, ihash]))
          ((c.path ++ [dh, ihash]) ++ [JOB_RUN_TIME]) (.file (.timeData time))) = some g2
    have hcond : ¬((fs (c.path ++ [dh, ihash])).isSome = true) := by
      rw [hfsdir]
      simp
    rw [if_neg hcond]
    exact hg2
  have hget_dirfor : c.dir_for g2 inputs deps = some (c.path ++ [dh, ihash]) := by
    unfold Cache.dir_for
    rw [get_dep_hash_congr fun d hd => i1 d (hdeps d hd).1 (hdeps d hd).2,
        get_inp_hash_congr fun i hi => i1 i (hinps i hi).1 (hinps i hi).2,
        hdep, hinp]
    rfl
  have hg2dir : (g2 (c.path ++ [dh, ihash])).isSome = true := by
    have h := (i2 []).mpr (Or.inl rfl)
    rwa [List.append_nil] at h
  have hg2jrt : (g2 ((c.path ++ [dh, ihash]) ++ [JOB_RUN_TIME])).isSome = true := by
    rw [i4]
    rfl
  have hget : c.get g2 inputs deps = some (cacheLookup g2 (c.path ++ [dh, ihash])) := by
    unfold Cache.get
    rw [hget_dirfor]
    show some (if (g2 (c.path ++ [dh, ihash])).isSome then
        (if (g2 ((c.path ++ [dh, ihash]) ++ [JOB_RUN_TIME])).isSome then
          cacheLookup g2 (c.path ++ [dh, ihash])
        else fun _ => none)
      else fun _ => none) = some (cacheLookup g2 (c.path ++ [dh, ihash]))
    rw [if_pos hg2dir, if_pos hg2jrt]
  refine ⟨g2, cacheLookup g2 (c.path ++ [dh, ihash]), hinsert, hget, ?_, ?_, ?_⟩
  · intro rel
    by_cases hrel : rel = []
    · subst hrel
      constructor
      · intro h
        rw [show cacheLookup g2 (c.path ++ [dh, ihash]) [] = none from if_pos rfl] at h
        exact absurd h (by simp)
      · rintro (h | ⟨o, ho, hne, _⟩)
        · exact List.noConfusion h
        · exact absurd rfl hne
    · rw [cacheLookup_isSome hrel, i2 rel]
      constructor
      · rintro (h | h)
        · exact absurd h hrel
        · exact h
      · exact Or.inr
  · intro o ho d hfile
    have hg2o : g2 ((c.path ++ [dh, ihash]) ++ o) = some (.file d) := i3 o ho d hfile
    exact ⟨cacheLookup_file (hone o ho) hg2o, hg2o⟩
  · exact get_runtime_of_file
      (cacheLookup_file (List.cons_ne_nil _ _) i4) i4

/-- The dependency hash of the concrete file system `fsC8`. -/
def dhW : String := (get_dep_hash fsC8 [["dep.rs"]]).getD ""

/-- The input hash of the concrete file system `fsC8`. -/
def ihW : String := (get_inp_hash fsC8 [["in.txt"]]).getD ""

/-- The concrete cache directory for the round-trip witness. -/
def dirW : List String := (Cache.new "TestJob").path ++ [dhW, ihW]

/-- `fsC8` holds nothing under `.runner-cache`. -/
theorem fsC8_runner_cache (rest : List String) :
    fsC8 (".runner-cache" :: rest) = none := by
  simp [fsC8]

/-- Witness for C8 (amended): the concrete round trip on `fsC8` with the
directory output `a`, the file output `a/b`, and a run time of 1. -/
theorem c8_witness :
    ∃ fs2 m,
      (Cache.new "TestJob").insert fsC8 [["in.txt"]] [["dep.rs"]]
        [["a"], ["a", "b"]] (some 1) = some fs2 ∧
      (Cache.new "TestJob").get fs2 [["in.txt"]] [["dep.rs"]] = some m ∧
      (∀ rel, (m rel).isSome ↔ (rel = [JOB_RUN_TIME] ∨
        ∃ o ∈ [["a"], ["a", "b"]], rel ≠ [] ∧ rel <+: o)) ∧
      (∀ o ∈ [["a"], ["a", "b"]], ∀ d, fsC8 o = some (.file d) →
        m o = some (.File (dirW ++ o)) ∧ fs2 (dirW ++ o) = some (.file d)) ∧
      Cache.get_runtime fs2 m = some (some 1) :=
  c8_cache_round_trip (Cache.new "TestJob") fsC8 [["in.txt"]] [["dep.rs"]]
    [["a"], ["a", "b"]] (some 1) dhW ihW dirW rfl rfl rfl
    (fun rel => fsC8_runner_cache ("TestJob" :: dhW :: ihW :: rel))
    (by decide) (by decide) (by decide) (by decide) (by decide) (by decide)

end Trex
